import Mathlib

set_option maxRecDepth 8000

/-!
Verification development for the DUPLICATOR repository.

The repository is a Python application that ingests packaged websites,
infers each site's original domain and display name, synthesizes fresh
pseudo-random domains, rewrites the site's text files, and repackages
the results in a batch.  This file gives a shallow embedding of the
relevant Python functions (from `src/utils/*.py`) as executable Lean
definitions, and proves or refutes the frozen specification claims
about them.

Modelling conventions:
* Python strings are Lean `String`s (ASCII contents in all relevant
  inputs); character-level work happens on `List Char`.
* `random.choice(xs)` is modelled by an oracle `Nat → Nat`: the n-th
  random draw selects index `oracle n % xs.length`.  `random.random() < 0.5`
  is modelled by the parity of the next oracle value.  The oracle call
  counter and the synthesizer's `generated_domains` set form `GenState`.
* Python's `set` iteration order (in `list(set(...))`) is modelled as
  first-occurrence order (`List.dedup`).
* File-system reading/decoding is external to the core (per the spec);
  file trees are lists of `(name, decoded content)` pairs.
-/

/-! ## Python string primitives -/

def lstr (s : String) : List Char := s.data

def lowerL (l : List Char) : List Char := l.map Char.toLower

/-- Python `str.lower()` (kernel-reducible, unlike `String.toLower`). -/
def pyLower (s : String) : String := String.mk (lowerL (lstr s))

/-- Python slicing `s[:n]` (kernel-reducible, unlike `String.take`). -/
def pyTake (s : String) (n : Nat) : String := String.mk (s.data.take n)

/-- Python `str.replace(sub, rep)` on char lists: replaces every
non-overlapping occurrence left-to-right.  An empty `sub` is treated as
a no-op (Python's behaviour for empty patterns is never exercised by
the repository).  The `fuel` argument makes the recursion structural;
it never runs out when initialized with the list length, since every
step consumes at least one character. -/
def pyReplaceAux (sub rep : List Char) : Nat → List Char → List Char
  | 0, l => l
  | _ + 1, [] => []
  | fuel + 1, c :: cs =>
    if sub ≠ [] ∧ List.isPrefixOf sub (c :: cs) then
      rep ++ pyReplaceAux sub rep fuel (List.drop (sub.length - 1) cs)
    else
      c :: pyReplaceAux sub rep fuel cs

def pyReplaceL (sub rep l : List Char) : List Char :=
  pyReplaceAux sub rep l.length l

def pyReplace (s sub rep : String) : String :=
  String.mk (pyReplaceL (lstr sub) (lstr rep) (lstr s))

/-- Python `str.isalpha()`: nonempty and all alphabetic. -/
def pyIsAlpha (s : String) : Bool :=
  !s.data.isEmpty && s.data.all Char.isAlpha

/-- Python `range(a, b)`. -/
def rangeList (a b : Nat) : List Nat := (List.range b).drop a

/-! ## DomainGenerator (src/utils/domain_generator.py)

The dictionary resource: `data/domain_words.json` is absent from the
repository, so `load_dictionary` always takes its `FileNotFoundError`
fallback; `defaultGenConfig` is that built-in set.  Definitions are
still parametric in the configuration. -/

structure GenConfig where
  short_words : List String
  random_consonants : List String
  random_vowels : List String
  vowel_replacements : List (Char × List Char)

def defaultGenConfig : GenConfig where
  short_words := ["bio", "pure", "care", "well", "zen", "lux", "nova", "via"]
  random_consonants := ["x", "z", "q", "w", "k"]
  random_vowels := ["a", "e", "i", "o", "u", "y"]
  vowel_replacements := []

/-- The synthesizer's mutable state: the number of random draws made so
far (indexing the oracle) and the `generated_domains` set (as a list,
most recent first). -/
structure GenState where
  ctr : Nat
  generated_domains : List String

/-- `random.choice(xs)` under the oracle model. -/
def pick (o : Nat → Nat) (s : GenState) (xs : List String) : String × GenState :=
  (xs.getD (o s.ctr % xs.length) (""), ⟨s.ctr + 1, s.generated_domains⟩)

/-- `extract_parts`: 3–6 char substrings from the prefix, the suffix and
(for long labels) a middle window, deduplicated. -/
def extract_parts (domain : String) : List String :=
  let length := domain.length
  let pre := (rangeList 3 (min 7 (length + 1))).map
    (fun i => String.mk (domain.data.take i))
  let suf := (rangeList 3 (min 7 (length + 1))).map
    (fun i => String.mk (domain.data.drop (length - i)))
  let mid := if length > 6 then
      (rangeList 3 7).filterMap (fun i =>
        if length / 3 + i ≤ length then
          some (String.mk ((domain.data.drop (length / 3)).take i))
        else none)
    else []
  ((pre ++ suf ++ mid).filter
    (fun p => decide (3 ≤ p.length) && decide (p.length ≤ 6))).dedup

def strategy_prefix_original_plus_nutra (o : Nat → Nat) (cfg : GenConfig)
    (parts : List String) (s : GenState) : String × GenState :=
  let r1 := pick o s parts
  let r2 := pick o r1.2 cfg.short_words
  (r1.1 ++ r2.1, r2.2)

def strategy_nutra_plus_suffix_original (o : Nat → Nat) (cfg : GenConfig)
    (parts : List String) (s : GenState) : String × GenState :=
  let r1 := pick o s cfg.short_words
  let r2 := pick o r1.2 parts
  (r1.1 ++ r2.1, r2.2)

/-- The Python `while word2 == word1` retry loop, which redraws until a
different word appears; modelled with a (large) fuel bound, after which
the last draw is returned as-is. -/
def pickDifferent (o : Nat → Nat) (cfg : GenConfig) (w1 : String) :
    Nat → GenState → String × GenState
  | fuel, s =>
    let r := pick o s cfg.short_words
    match fuel with
    | 0 => r
    | n + 1 => if r.1 = w1 then pickDifferent o cfg w1 n r.2 else r

def strategy_pure_nutra_combination (o : Nat → Nat) (cfg : GenConfig)
    (s : GenState) : String × GenState :=
  let r1 := pick o s cfg.short_words
  let r2 := pickDifferent o cfg r1.1 1000 r1.2
  (r1.1 ++ r2.1, r2.2)

def strategy_triple_combination (o : Nat → Nat) (cfg : GenConfig)
    (parts : List String) (s : GenState) : String × GenState :=
  let r1 := pick o s cfg.short_words
  let r2 := pick o r1.2 cfg.short_words
  let r3 := if parts.isEmpty then pick o r2.2 cfg.short_words else pick o r2.2 parts
  let combinations := [r1.1 ++ r2.1 ++ pyTake r3.1 3, r1.1 ++ pyTake r3.1 3 ++ pyTake r2.1 3,
    pyTake r3.1 3 ++ r1.1 ++ pyTake r2.1 3]
  pick o r3.2 combinations

def strategy_reverse_mutation (o : Nat → Nat) (cfg : GenConfig)
    (parts : List String) (s : GenState) : String × GenState :=
  let r1 := pick o s parts
  let reversed_part := String.mk (r1.1.data.reverse.take 4)
  let r2 := pick o r1.2 cfg.short_words
  let combinations := [reversed_part ++ r2.1, r2.1 ++ reversed_part,
    reversed_part ++ pyTake r2.1 4]
  pick o r2.2 combinations

def strategy_consonant_insertion (o : Nat → Nat) (cfg : GenConfig)
    (parts : List String) (s : GenState) : String × GenState :=
  let r1 := pick o s parts
  let r2 := pick o r1.2 cfg.short_words
  let r3 := pick o r2.2 cfg.random_consonants
  let combinations := [r1.1 ++ r3.1 ++ r2.1, r2.1 ++ r3.1 ++ r1.1,
    pyTake r1.1 3 ++ r3.1 ++ r2.1]
  pick o r3.2 combinations

/-- Per-character vowel mutation: for each character with an entry in
the replacement table, flip a coin (oracle parity) and on heads replace
it by a drawn replacement character. -/
def mutateChars (o : Nat → Nat) (cfg : GenConfig) :
    List Char → GenState → List Char × GenState
  | [], s => ([], s)
  | c :: cs, s =>
    match cfg.vowel_replacements.lookup c with
    | none =>
      let r := mutateChars o cfg cs s
      (c :: r.1, r.2)
    | some repls =>
      if o s.ctr % 2 = 0 then
        let c2 := repls.getD (o (s.ctr + 1) % repls.length) c
        let r := mutateChars o cfg cs ⟨s.ctr + 2, s.generated_domains⟩
        (c2 :: r.1, r.2)
      else
        let r := mutateChars o cfg cs ⟨s.ctr + 1, s.generated_domains⟩
        (c :: r.1, r.2)

def strategy_vowel_mutation (o : Nat → Nat) (cfg : GenConfig)
    (parts : List String) (s : GenState) : String × GenState :=
  let r1 := pick o s parts
  let r2 := pick o r1.2 cfg.short_words
  let r3 := mutateChars o cfg r1.1.data r2.2
  let mutated_part := String.mk r3.1
  let combinations := [mutated_part ++ r2.1, r2.1 ++ mutated_part]
  pick o r3.2 combinations

def vowelCount (s : String) : Nat :=
  s.data.countP (fun c => (lstr ("aeiouAEIOU")).contains c)

def consonantStreakOk : List Char → Nat → Bool
  | [], _ => true
  | c :: cs, streak =>
    if (lstr ("aeiou")).contains c.toLower then consonantStreakOk cs 0
    else if streak + 1 > 4 then false
    else consonantStreakOk cs (streak + 1)

/-- `validate_domain`: length 5–11, alphabetic only, at least two
vowels, no run of more than 4 consecutive consonants. -/
def validate_domain (domain : String) : Bool :=
  decide (5 ≤ domain.length) && decide (domain.length ≤ 11) &&
  pyIsAlpha domain &&
  decide (2 ≤ vowelCount domain) &&
  consonantStreakOk domain.data 0

/-- The cleaning prelude of `generate_domain`: lowercase, strip known
zones, strip `www.`/schemes, keep letters only, fall back to a fixed
token when shorter than 3 characters. -/
def cleanOriginal (original_domain : String) : String :=
  let d0 := pyLower original_domain
  let exts := [".com", ".net", ".org", ".ru", ".info", ".io", ".co"]
  let d1 := exts.foldl (fun acc e => pyReplace acc e ("")) d0
  let d2 := pyReplace (pyReplace (pyReplace d1 ("www.") ("")) ("http://") ("")) ("https://") ("")
  let d3 := String.mk (d2.data.filter Char.isAlpha)
  if d3.length < 3 then ("health") else d3

inductive Strat
  | s1 | s2 | s3 | s4 | s5 | s6 | s7
deriving DecidableEq

/-- The weighted strategy list built by `generate_domain`
(`strategy_list.extend([strategy] * weight)`, weights 30/30/15/10/10/3/2). -/
def strategy_list : List Strat :=
  List.replicate 30 Strat.s1 ++ List.replicate 30 Strat.s2 ++
  List.replicate 15 Strat.s3 ++ List.replicate 10 Strat.s4 ++
  List.replicate 10 Strat.s5 ++ List.replicate 3 Strat.s6 ++
  List.replicate 2 Strat.s7

def pickStrat (o : Nat → Nat) (s : GenState) : Strat × GenState :=
  (strategy_list.getD (o s.ctr % strategy_list.length) Strat.s1,
   ⟨s.ctr + 1, s.generated_domains⟩)

def runStrategy (o : Nat → Nat) (cfg : GenConfig) (parts : List String) :
    Strat → GenState → String × GenState
  | Strat.s1, s => strategy_prefix_original_plus_nutra o cfg parts s
  | Strat.s2, s => strategy_nutra_plus_suffix_original o cfg parts s
  | Strat.s3, s => strategy_pure_nutra_combination o cfg s
  | Strat.s4, s => strategy_triple_combination o cfg parts s
  | Strat.s5, s => strategy_reverse_mutation o cfg parts s
  | Strat.s6, s => strategy_consonant_insertion o cfg parts s
  | Strat.s7, s => strategy_vowel_mutation o cfg parts s

/-- The retry loop of `generate_domain` (`max_attempts = 50`): draw a
strategy, run it, lowercase, and accept when valid and not yet emitted,
recording acceptance in `generated_domains`. -/
def attemptLoop (o : Nat → Nat) (cfg : GenConfig) (parts : List String)
    (zone : String) : Nat → GenState → Option String × GenState
  | 0, s => (none, s)
  | n + 1, s =>
    let r1 := pickStrat o s
    let r2 := runStrategy o cfg parts r1.1 r1.2
    let ndl := pyLower r2.1
    let full := ndl ++ zone
    if validate_domain ndl && !(r2.2.generated_domains.contains full) then
      (some full, ⟨r2.2.ctr, full :: r2.2.generated_domains⟩)
    else attemptLoop o cfg parts zone n r2.2

/-- The exhaustion fallback of `generate_domain`: a part (or the fixed
token when no parts exist), a dictionary word and a consonant, first 4
characters of part and word, lowercased, plus the zone.  It is returned
without validation and without touching `generated_domains`. -/
def fallbackBuild (o : Nat → Nat) (cfg : GenConfig) (parts : List String)
    (s : GenState) (zone : String) : String × GenState :=
  let r1 := if parts.isEmpty then (("health"), s) else pick o s parts
  let r2 := pick o r1.2 cfg.short_words
  let r3 := pick o r2.2 cfg.random_consonants
  (pyLower (pyTake r1.1 4 ++ pyTake r2.1 4 ++ r3.1) ++ zone, r3.2)

def generate_domain (o : Nat → Nat) (cfg : GenConfig) (s : GenState)
    (original_domain zone : String) : String × GenState :=
  let parts := extract_parts (cleanOriginal original_domain)
  let r := attemptLoop o cfg parts zone 50 s
  match r.1 with
  | some full => (full, r.2)
  | none => fallbackBuild o cfg parts r.2 zone

/-- Instrumented mirror of `generate_domain` tagging whether the result
came from the retry-success path (`true`) or the fallback (`false`). -/
def generate_domain_t (o : Nat → Nat) (cfg : GenConfig) (s : GenState)
    (original_domain zone : String) : (String × Bool) × GenState :=
  let parts := extract_parts (cleanOriginal original_domain)
  let r := attemptLoop o cfg parts zone 50 s
  match r.1 with
  | some full => ((full, true), r.2)
  | none =>
    let fb := fallbackBuild o cfg parts r.2 zone
    ((fb.1, false), fb.2)

def generate_domains (o : Nat → Nat) (cfg : GenConfig) (orig : String)
    (zone : String) : Nat → GenState → List String × GenState
  | 0, s => ([], s)
  | n + 1, s =>
    let r := generate_domain o cfg s orig zone
    let rest := generate_domains o cfg orig zone n r.2
    (r.1 :: rest.1, rest.2)

def generate_domains_t (o : Nat → Nat) (cfg : GenConfig) (orig : String)
    (zone : String) : Nat → GenState → List (String × Bool) × GenState
  | 0, s => ([], s)
  | n + 1, s =>
    let r := generate_domain_t o cfg s orig zone
    let rest := generate_domains_t o cfg orig zone n r.2
    (r.1 :: rest.1, rest.2)

/-- A batch of `generate_domains` calls against one synthesizer
instance without an intervening `reset` (one entry per source package:
original label and requested copy count). -/
def runBatch (o : Nat → Nat) (cfg : GenConfig) (zone : String) :
    List (String × Nat) → GenState → List String × GenState
  | [], s => ([], s)
  | (orig, count) :: jobs, s =>
    let r := generate_domains o cfg orig zone count s
    let rest := runBatch o cfg zone jobs r.2
    (r.1 ++ rest.1, rest.2)

def runBatch_t (o : Nat → Nat) (cfg : GenConfig) (zone : String) :
    List (String × Nat) → GenState → List (String × Bool) × GenState
  | [], s => ([], s)
  | (orig, count) :: jobs, s =>
    let r := generate_domains_t o cfg orig zone count s
    let rest := runBatch_t o cfg zone jobs r.2
    (r.1 ++ rest.1, rest.2)

/-- `reset()` clears the emitted set. -/
def genReset (s : GenState) : GenState := ⟨s.ctr, []⟩

/-! ### State lemmas for the generator -/

theorem pick_gd (o : Nat → Nat) (s : GenState) (xs : List String) :
    (pick o s xs).2.generated_domains = s.generated_domains := rfl

theorem pickDifferent_gd (o : Nat → Nat) (cfg : GenConfig) (w1 : String) :
    ∀ fuel s, (pickDifferent o cfg w1 fuel s).2.generated_domains = s.generated_domains := by
  intro fuel
  induction fuel with
  | zero => intro s; rfl
  | succ n ih =>
    intro s
    simp only [pickDifferent]
    split
    · exact ih _
    · rfl

theorem mutateChars_gd (o : Nat → Nat) (cfg : GenConfig) :
    ∀ l s, (mutateChars o cfg l s).2.generated_domains = s.generated_domains := by
  intro l
  induction l with
  | nil => intro s; rfl
  | cons c cs ih =>
    intro s
    simp only [mutateChars]
    cases h : cfg.vowel_replacements.lookup c with
    | none => simpa using ih s
    | some repls =>
      simp only
      split
      · simpa using ih _
      · simpa using ih _

theorem runStrategy_gd (o : Nat → Nat) (cfg : GenConfig) (parts : List String)
    (tag : Strat) (s : GenState) :
    (runStrategy o cfg parts tag s).2.generated_domains = s.generated_domains := by
  cases tag <;>
    simp [runStrategy, strategy_prefix_original_plus_nutra,
      strategy_nutra_plus_suffix_original, strategy_pure_nutra_combination,
      strategy_triple_combination, strategy_reverse_mutation,
      strategy_consonant_insertion, strategy_vowel_mutation,
      pick, pickDifferent_gd, mutateChars_gd, apply_ite]

theorem attemptLoop_spec (o : Nat → Nat) (cfg : GenConfig) (parts : List String)
    (zone : String) : ∀ n s,
    ((attemptLoop o cfg parts zone n s).1 = none ∧
      (attemptLoop o cfg parts zone n s).2.generated_domains = s.generated_domains) ∨
    (∃ full, (attemptLoop o cfg parts zone n s).1 = some full ∧
      full ∉ s.generated_domains ∧
      (attemptLoop o cfg parts zone n s).2.generated_domains =
        full :: s.generated_domains) := by
  intro n
  induction n with
  | zero => intro s; left; exact ⟨rfl, rfl⟩
  | succ n ih =>
    intro s
    have hgd : (runStrategy o cfg parts (pickStrat o s).1
        (pickStrat o s).2).2.generated_domains = s.generated_domains := by
      simp [runStrategy_gd, pickStrat]
    simp only [attemptLoop]
    split
    next hcond =>
      right
      refine ⟨_, rfl, ?_, by simp [hgd]⟩
      rw [Bool.and_eq_true] at hcond
      have h2 := hcond.2
      rw [Bool.not_eq_true'] at h2
      rw [hgd] at h2
      intro hmem
      simp at h2
      exact h2 hmem
    next =>
      rcases ih (runStrategy o cfg parts (pickStrat o s).1 (pickStrat o s).2).2 with
        ⟨h1, h2⟩ | ⟨full, h1, h2, h3⟩
      · left; exact ⟨h1, h2.trans hgd⟩
      · right
        refine ⟨full, h1, ?_, ?_⟩
        · rw [hgd] at h2; exact h2
        · rw [h3, hgd]

theorem attemptLoop_valid (o : Nat → Nat) (cfg : GenConfig) (parts : List String)
    (zone : String) : ∀ n s full, (attemptLoop o cfg parts zone n s).1 = some full →
    ∃ label, full = label ++ zone ∧ validate_domain label = true := by
  intro n
  induction n with
  | zero => intro s full h; exact absurd h (by simp [attemptLoop])
  | succ n ih =>
    intro s full h
    rw [attemptLoop] at h
    split at h
    next hcond =>
      rw [Bool.and_eq_true] at hcond
      simp only [Prod.fst] at h
      cases h
      exact ⟨_, rfl, hcond.1⟩
    next => exact ih _ full h

theorem fallbackBuild_gd (o : Nat → Nat) (cfg : GenConfig) (parts : List String)
    (s : GenState) (zone : String) :
    (fallbackBuild o cfg parts s zone).2.generated_domains = s.generated_domains := by
  simp [fallbackBuild, pick, apply_ite]

/-- Membership of an oracle draw: `pick` returns an element of a
nonempty list. -/
theorem pick_mem (o : Nat → Nat) (s : GenState) (xs : List String)
    (h : xs ≠ []) : (pick o s xs).1 ∈ xs := by
  have hlen : 0 < xs.length := List.length_pos.2 h
  have hlt : o s.ctr % xs.length < xs.length := Nat.mod_lt _ hlen
  simp only [pick, List.getD_eq_getElem?_getD, List.getElem?_eq_getElem hlt,
    Option.getD_some]
  exact List.getElem_mem hlt

/-! ### Claim C3 -/

/-- A concrete random oracle: every attempt draws the
consonant-insertion strategy and builds `bcdxzen` (one vowel, hence
invalid), so the 50-attempt loop exhausts and the fallback path runs. -/
def cexOracle : Nat → Nat := fun k => [95, 4, 4, 0, 0].getD (k % 5) 0

/-- C3 counterexample: the claim "every domain returned by
generate_domain, including the exhaustion fallback path, passes the
validator" is false.  For the original domain `bcd.com` and the oracle
above, the exhausted loop falls back to `bcdzenk.com`, whose label
`bcdzenk` has only one vowel and fails `validate_domain`. -/
theorem c3_counterexample :
    (generate_domain cexOracle defaultGenConfig ⟨0, []⟩ ("bcd.com") (".com")).1 =
      ("bcdzenk") ++ (".com") ∧
    validate_domain ("bcdzenk") = false ∧
    vowelCount ("bcdzenk") < 2 := by
  refine ⟨by decide, by decide, by decide⟩

/-- C3 (amended): every domain returned by `generate_domain` through
the retry-success path passes the validator (the exhaustion fallback is
returned without validation and can violate it).  The returned string
is the validated label plus the zone. -/
theorem c3_amended_success_validates (o : Nat → Nat) (cfg : GenConfig)
    (s : GenState) (orig zone : String)
    (h : (generate_domain_t o cfg s orig zone).1.2 = true) :
    (generate_domain_t o cfg s orig zone).1.1 = (generate_domain o cfg s orig zone).1 ∧
    ∃ label, (generate_domain o cfg s orig zone).1 = label ++ zone ∧
      validate_domain label = true := by
  simp only [generate_domain_t, generate_domain] at *
  cases hA : (attemptLoop o cfg (extract_parts (cleanOriginal orig)) zone 50 s).1 with
  | none => rw [hA] at h; exact Bool.noConfusion h
  | some full =>
    exact ⟨rfl, attemptLoop_valid o cfg _ zone 50 s full hA⟩

/-- Witness for the amended C3: with the all-zeros oracle the first
attempt succeeds with label `bcdbio`, which the validator accepts. -/
theorem c3_amended_witness :
    (generate_domain_t (fun _ => 0) defaultGenConfig ⟨0, []⟩ ("bcd.com") (".com")).1.2 = true ∧
    ((generate_domain_t (fun _ => 0) defaultGenConfig ⟨0, []⟩ ("bcd.com") (".com")).1.1 =
      (generate_domain (fun _ => 0) defaultGenConfig ⟨0, []⟩ ("bcd.com") (".com")).1 ∧
     ∃ label, (generate_domain (fun _ => 0) defaultGenConfig ⟨0, []⟩ ("bcd.com") (".com")).1 =
        label ++ (".com") ∧ validate_domain label = true) :=
  ⟨by decide, c3_amended_success_validates (fun _ => 0) defaultGenConfig ⟨0, []⟩
    ("bcd.com") (".com") (by decide)⟩

/-! ### Claim C5 -/

/-- C5: when the 50-attempt retry loop exhausts, `generate_domain`
returns the fallback built from a part (or the fixed token when no
parts exist), a dictionary word and a consonant — first 4 characters of
the part and the word — lowercased, plus the zone; it is returned
regardless of the uniqueness check (no hypothesis about membership in
`generated_domains` is needed) and is not recorded in the set. -/
theorem c5_fallback_shape (o : Nat → Nat) (cfg : GenConfig) (s : GenState)
    (orig zone : String)
    (h : (attemptLoop o cfg (extract_parts (cleanOriginal orig)) zone 50 s).1 = none) :
    ∃ base nutra cons,
      ((extract_parts (cleanOriginal orig) ≠ [] →
          base ∈ extract_parts (cleanOriginal orig)) ∧
       (extract_parts (cleanOriginal orig) = [] → base = ("health"))) ∧
      (cfg.short_words ≠ [] → nutra ∈ cfg.short_words) ∧
      (cfg.random_consonants ≠ [] → cons ∈ cfg.random_consonants) ∧
      (generate_domain o cfg s orig zone).1 =
        pyLower (pyTake base 4 ++ pyTake nutra 4 ++ cons) ++ zone ∧
      (generate_domain o cfg s orig zone).2.generated_domains = s.generated_domains := by
  have hgd : (attemptLoop o cfg (extract_parts (cleanOriginal orig)) zone 50
      s).2.generated_domains = s.generated_domains := by
    rcases attemptLoop_spec o cfg (extract_parts (cleanOriginal orig)) zone 50 s with
      ⟨_, h2⟩ | ⟨full, hfull, _, _⟩
    · exact h2
    · rw [h] at hfull; exact Option.noConfusion hfull
  simp only [generate_domain]
  rw [h]
  set s' := (attemptLoop o cfg (extract_parts (cleanOriginal orig)) zone 50 s).2 with hs'
  set parts := extract_parts (cleanOriginal orig) with hparts
  refine ⟨(if parts.isEmpty then (("health"), s') else pick o s' parts).1,
    (pick o (if parts.isEmpty then (("health"), s') else pick o s' parts).2
      cfg.short_words).1,
    (pick o (pick o (if parts.isEmpty then (("health"), s') else pick o s' parts).2
      cfg.short_words).2 cfg.random_consonants).1, ⟨?_, ?_⟩, ?_, ?_, ?_, ?_⟩
  · intro hne
    rw [if_neg (by simpa using hne)]
    exact pick_mem o s' parts hne
  · intro hemp
    rw [if_pos (by simpa using hemp)]
  · intro hne
    exact pick_mem o _ cfg.short_words hne
  · intro hne
    exact pick_mem o _ cfg.random_consonants hne
  · rfl
  · show (fallbackBuild o cfg parts s' zone).2.generated_domains = s.generated_domains
    rw [fallbackBuild_gd, hs', hgd]

/-- Witness for C5: the oracle of the C3 scenario exhausts the loop and
yields the fallback `bcdzenk.com` with an unchanged emitted set. -/
theorem c5_fallback_witness :
    (attemptLoop cexOracle defaultGenConfig
      (extract_parts (cleanOriginal ("bcd.com"))) (".com") 50 ⟨0, []⟩).1 = none ∧
    ∃ base nutra cons,
      ((extract_parts (cleanOriginal ("bcd.com")) ≠ [] →
          base ∈ extract_parts (cleanOriginal ("bcd.com"))) ∧
       (extract_parts (cleanOriginal ("bcd.com")) = [] → base = ("health"))) ∧
      (defaultGenConfig.short_words ≠ [] → nutra ∈ defaultGenConfig.short_words) ∧
      (defaultGenConfig.random_consonants ≠ [] →
        cons ∈ defaultGenConfig.random_consonants) ∧
      (generate_domain cexOracle defaultGenConfig ⟨0, []⟩ ("bcd.com") (".com")).1 =
        pyLower (pyTake base 4 ++ pyTake nutra 4 ++ cons) ++ (".com") ∧
      (generate_domain cexOracle defaultGenConfig ⟨0, []⟩
        ("bcd.com") (".com")).2.generated_domains = [] :=
  ⟨by decide, c5_fallback_shape cexOracle defaultGenConfig ⟨0, []⟩
    ("bcd.com") (".com") (by decide)⟩

/-! ### Claim C4 -/

theorem generate_domain_t_fst (o : Nat → Nat) (cfg : GenConfig) (s : GenState)
    (orig zone : String) :
    (generate_domain_t o cfg s orig zone).1.1 = (generate_domain o cfg s orig zone).1 ∧
    (generate_domain_t o cfg s orig zone).2 = (generate_domain o cfg s orig zone).2 := by
  simp only [generate_domain_t, generate_domain]
  cases hA : (attemptLoop o cfg (extract_parts (cleanOriginal orig)) zone 50 s).1 <;>
    exact ⟨rfl, rfl⟩

theorem generate_domain_t_spec (o : Nat → Nat) (cfg : GenConfig) (s : GenState)
    (orig zone : String) :
    ((generate_domain_t o cfg s orig zone).1.2 = true →
      (generate_domain_t o cfg s orig zone).1.1 ∉ s.generated_domains ∧
      (generate_domain_t o cfg s orig zone).2.generated_domains =
        (generate_domain_t o cfg s orig zone).1.1 :: s.generated_domains) ∧
    ((generate_domain_t o cfg s orig zone).1.2 = false →
      (generate_domain_t o cfg s orig zone).2.generated_domains =
        s.generated_domains) := by
  simp only [generate_domain_t]
  rcases attemptLoop_spec o cfg (extract_parts (cleanOriginal orig)) zone 50 s with
    ⟨h1, h2⟩ | ⟨full, h1, h2, h3⟩ <;> rw [h1]
  · exact ⟨fun hfalse => Bool.noConfusion hfalse,
      fun _ => by rw [fallbackBuild_gd]; exact h2⟩
  · exact ⟨fun _ => ⟨h2, h3⟩, fun hfalse => Bool.noConfusion hfalse⟩

theorem generate_domain_t_mono (o : Nat → Nat) (cfg : GenConfig) (s : GenState)
    (orig zone : String) :
    s.generated_domains ⊆ (generate_domain_t o cfg s orig zone).2.generated_domains := by
  rcases generate_domain_t_spec o cfg s orig zone with ⟨ht, hf⟩
  cases htag : (generate_domain_t o cfg s orig zone).1.2
  · rw [hf htag]
    exact fun a ha => ha
  · rw [(ht htag).2]; exact List.subset_cons_self _ _

/-- Pairwise-distinctness modulo the fallback tag: two results produced
by the retry-success path never coincide. -/
def TagDistinct (a b : String × Bool) : Prop := a.2 = true → b.2 = true → a.1 ≠ b.1

theorem generate_domains_t_spec (o : Nat → Nat) (cfg : GenConfig)
    (orig zone : String) : ∀ n s,
    (∀ x ∈ (generate_domains_t o cfg orig zone n s).1, x.2 = true →
      x.1 ∈ (generate_domains_t o cfg orig zone n s).2.generated_domains ∧
      x.1 ∉ s.generated_domains) ∧
    s.generated_domains ⊆ (generate_domains_t o cfg orig zone n s).2.generated_domains ∧
    List.Pairwise TagDistinct (generate_domains_t o cfg orig zone n s).1 := by
  intro n
  induction n with
  | zero =>
    intro s
    refine ⟨by simp [generate_domains_t], by simp [generate_domains_t],
      by simp [generate_domains_t]⟩
  | succ n ih =>
    intro s
    simp only [generate_domains_t]
    obtain ⟨ihmem, ihsub, ihpw⟩ := ih (generate_domain_t o cfg s orig zone).2
    obtain ⟨ht, hf⟩ := generate_domain_t_spec o cfg s orig zone
    have hmono := generate_domain_t_mono o cfg s orig zone
    refine ⟨?_, ?_, ?_⟩
    · intro x hx htag
      rcases List.mem_cons.1 hx with rfl | hx'
      · exact ⟨ihsub (by rw [(ht htag).2]; exact List.mem_cons_self _ _), (ht htag).1⟩
      · obtain ⟨hin, hnot⟩ := ihmem x hx' htag
        exact ⟨hin, fun hmem => hnot (hmono hmem)⟩
    · exact hmono.trans ihsub
    · refine List.pairwise_cons.2 ⟨?_, ihpw⟩
      intro y hy hxt hyt
      obtain ⟨_, hnot⟩ := ihmem y hy hyt
      intro heq
      apply hnot
      rw [← heq, (ht hxt).2]
      exact List.mem_cons_self _ _

theorem runBatch_t_spec (o : Nat → Nat) (cfg : GenConfig) (zone : String) :
    ∀ jobs s,
    (∀ x ∈ (runBatch_t o cfg zone jobs s).1, x.2 = true →
      x.1 ∈ (runBatch_t o cfg zone jobs s).2.generated_domains ∧
      x.1 ∉ s.generated_domains) ∧
    s.generated_domains ⊆ (runBatch_t o cfg zone jobs s).2.generated_domains ∧
    List.Pairwise TagDistinct (runBatch_t o cfg zone jobs s).1 := by
  intro jobs
  induction jobs with
  | nil =>
    intro s
    refine ⟨by simp [runBatch_t], by simp [runBatch_t], by simp [runBatch_t]⟩
  | cons job jobs ih =>
    obtain ⟨orig, count⟩ := job
    intro s
    simp only [runBatch_t]
    obtain ⟨gmem, gsub, gpw⟩ := generate_domains_t_spec o cfg orig zone count s
    obtain ⟨imem, isub, ipw⟩ := ih (generate_domains_t o cfg orig zone count s).2
    refine ⟨?_, ?_, ?_⟩
    · intro x hx htag
      rcases List.mem_append.1 hx with hx1 | hx2
      · obtain ⟨hin, hnot⟩ := gmem x hx1 htag
        exact ⟨isub hin, hnot⟩
      · obtain ⟨hin, hnot⟩ := imem x hx2 htag
        exact ⟨hin, fun hmem => hnot (gsub hmem)⟩
    · exact gsub.trans isub
    · rw [List.pairwise_append]
      refine ⟨gpw, ipw, ?_⟩
      intro a ha b hb hat hbt
      obtain ⟨hain, _⟩ := gmem a ha hat
      obtain ⟨_, hbnot⟩ := imem b hb hbt
      intro heq
      rw [heq] at hain
      exact hbnot hain

theorem generate_domains_t_fst (o : Nat → Nat) (cfg : GenConfig)
    (orig zone : String) : ∀ n s,
    (generate_domains_t o cfg orig zone n s).1.map Prod.fst =
      (generate_domains o cfg orig zone n s).1 ∧
    (generate_domains_t o cfg orig zone n s).2 =
      (generate_domains o cfg orig zone n s).2 := by
  intro n
  induction n with
  | zero => intro s; exact ⟨rfl, rfl⟩
  | succ n ih =>
    intro s
    simp only [generate_domains_t, generate_domains, List.map_cons]
    obtain ⟨hf, hs⟩ := generate_domain_t_fst o cfg s orig zone
    obtain ⟨ihf, ihs⟩ := ih (generate_domain_t o cfg s orig zone).2
    rw [hs] at ihf ihs
    exact ⟨by rw [hf, hs, ihf], by rw [hs, ihs]⟩

theorem runBatch_t_fst (o : Nat → Nat) (cfg : GenConfig) (zone : String) :
    ∀ jobs s,
    (runBatch_t o cfg zone jobs s).1.map Prod.fst = (runBatch o cfg zone jobs s).1 ∧
    (runBatch_t o cfg zone jobs s).2 = (runBatch o cfg zone jobs s).2 := by
  intro jobs
  induction jobs with
  | nil => intro s; exact ⟨rfl, rfl⟩
  | cons job jobs ih =>
    obtain ⟨orig, count⟩ := job
    intro s
    simp only [runBatch_t, runBatch, List.map_append]
    obtain ⟨hf, hs⟩ := generate_domains_t_fst o cfg orig zone count s
    obtain ⟨ihf, ihs⟩ := ih (generate_domains_t o cfg orig zone count s).2
    rw [hs] at ihf ihs
    exact ⟨by rw [hf, hs, ihf], by rw [hs, ihs]⟩

/-- C4: within one synthesizer instance, across any sequence of
`generate_domains` calls without an intervening reset (`runBatch`), the
returned full domain+zone strings are pairwise distinct barring the
documented fallback-exhaustion path (`TagDistinct`), and each
retry-success result is recorded in the instance's emitted set.  The
tagged run projects to the untagged `runBatch` results. -/
theorem c4_batch_uniqueness (o : Nat → Nat) (cfg : GenConfig) (zone : String)
    (jobs : List (String × Nat)) (s : GenState) :
    (runBatch_t o cfg zone jobs s).1.map Prod.fst = (runBatch o cfg zone jobs s).1 ∧
    (∀ x ∈ (runBatch_t o cfg zone jobs s).1, x.2 = true →
      x.1 ∈ (runBatch_t o cfg zone jobs s).2.generated_domains) ∧
    List.Pairwise TagDistinct (runBatch_t o cfg zone jobs s).1 := by
  obtain ⟨hmem, _, hpw⟩ := runBatch_t_spec o cfg zone jobs s
  exact ⟨(runBatch_t_fst o cfg zone jobs s).1, fun x hx ht => (hmem x hx ht).1, hpw⟩

/-- Witness for C4 at a concrete batch of two packages and three copies
total, an arbitrary concrete oracle, and the built-in dictionary. -/
theorem c4_batch_uniqueness_witness :
    (runBatch_t (fun k => k) defaultGenConfig (".com")
      [(("bcd.com"), 2), (("mysite.net"), 1)] ⟨0, []⟩).1.map Prod.fst =
      (runBatch (fun k => k) defaultGenConfig (".com")
        [(("bcd.com"), 2), (("mysite.net"), 1)] ⟨0, []⟩).1 ∧
    (∀ x ∈ (runBatch_t (fun k => k) defaultGenConfig (".com")
        [(("bcd.com"), 2), (("mysite.net"), 1)] ⟨0, []⟩).1, x.2 = true →
      x.1 ∈ (runBatch_t (fun k => k) defaultGenConfig (".com")
        [(("bcd.com"), 2), (("mysite.net"), 1)] ⟨0, []⟩).2.generated_domains) ∧
    List.Pairwise TagDistinct (runBatch_t (fun k => k) defaultGenConfig (".com")
      [(("bcd.com"), 2), (("mysite.net"), 1)] ⟨0, []⟩).1 :=
  c4_batch_uniqueness (fun k => k) defaultGenConfig (".com")
    [(("bcd.com"), 2), (("mysite.net"), 1)] ⟨0, []⟩

/-! ## A word-boundary-aware substitution engine

Python `re.subn` for the patterns the repository compiles from escaped
(literal) domain/name strings.  A matcher reports the length of a match
at the current position (`none` otherwise), given the previous
character for `\b` word-boundary checks; a matched span is replaced and
scanning resumes after it.  Zero-length matches are treated as
non-matches (reachable only for empty domain/name strings, which the
callers never produce).  The `fuel` argument makes the recursion
structural; initialized with the list length it never runs out. -/

def isWordChar (c : Char) : Bool := c.isAlphanum || c == Char.ofNat 95

def isWordOpt : Option Char → Bool
  | none => false
  | some c => isWordChar c

/-- Python `\b`: exactly one of the two adjacent positions holds a word
character. -/
def boundaryB (prev next : Option Char) : Bool := isWordOpt prev != isWordOpt next

/-- Case-insensitive `startsWith` against an already-lowercased
pattern (`re.IGNORECASE` matching). -/
def swl : List Char → List Char → Bool
  | [], _ => true
  | _ :: _, [] => false
  | p :: ps, c :: cs => (c.toLower == p) && swl ps cs

def subnAux (m : Option Char → List Char → Option Nat) (rep : List Char) :
    Nat → Option Char → List Char → List Char × Nat
  | 0, _, l => (l, 0)
  | _ + 1, _, [] => ([], 0)
  | fuel + 1, prev, c :: cs =>
    match m prev (c :: cs) with
    | some (k + 1) =>
      let r := subnAux m rep fuel (some ((cs.take k).getLastD c)) (cs.drop k)
      (rep ++ r.1, r.2 + 1)
    | _ =>
      let r := subnAux m rep fuel (some c) cs
      (c :: r.1, r.2)

/-- `pattern.subn(replacement, text)`: the rewritten text and the
number of replacements. -/
def subnRun (m : Option Char → List Char → Option Nat) (rep : List Char)
    (l : List Char) : List Char × Nat :=
  subnAux m rep l.length none l

/-! ## SiteNameReplacer (src/utils/site_name_replacer.py) -/

/-- Python `str.capitalize()`: first character uppercased, the rest
lowercased. -/
def pyCapitalize (s : String) : String :=
  match s.data with
  | [] => s
  | c :: cs => String.mk (c.toUpper :: lowerL cs)

def pyUpper (s : String) : String := String.mk (s.data.map Char.toUpper)

/-- Python truthiness of an optional string (`None` and `""` are
falsy); the callers of `replace_site_name_in_text` pass either a
detected name, `None`, or a derived name. -/
def pyFalsy : Option String → Bool
  | none => true
  | some s => s.data.isEmpty

/-- The case-sensitive matcher for the compiled pattern
`\b + re.escape(old_variant) + \b` (no IGNORECASE flag here). -/
def matchNameAt (pat : List Char) (prev : Option Char) (l : List Char) : Option Nat :=
  if pat.isEmpty then none
  else if boundaryB prev l.head? && List.isPrefixOf pat l &&
      boundaryB ((l.take pat.length).getLast?) ((l.drop pat.length).head?) then
    some pat.length
  else none

/-- `replace_site_name_in_text`: early return for falsy names, then the
four case variants (deduplicated in first-occurrence order, modelling
Python's `list(set(...))`), each applied as a word-boundary literal
substitution with counts summed. -/
def replace_site_name_in_text (text : String) (old_name new_name : Option String) :
    String × Nat :=
  if pyFalsy old_name || pyFalsy new_name then (text, 0)
  else
    let onm := old_name.getD ("")
    let nnm := new_name.getD ("")
    let variants := [(onm, nnm), (pyLower onm, pyLower nnm),
      (pyUpper onm, pyUpper nnm), (pyCapitalize onm, pyCapitalize nnm)].dedup
    variants.foldl (fun acc v =>
      if v.1 = v.2 then acc
      else
        let r := subnRun (matchNameAt v.1.data) v.2.data acc.1.data
        (String.mk r.1, acc.2 + r.2)) (text, 0)

/-- The fixed token list of `_split_camelcase`. -/
def common_parts : List String :=
  ["bio", "vita", "pure", "care", "health", "life", "well", "zen",
   "slim", "fit", "pro", "max", "neo", "air", "sun", "lux", "nova",
   "heal", "medz", "nutr", "opti", "rise", "wave", "zest", "flex",
   "glow", "herb", "leaf", "trim", "calm", "peak", "zone", "core"]

/-- `_split_camelcase`: split at a known token found at the start or
the end of the (lowercased) label. -/
def splitCamelcase (text : String) : List String :=
  let tl := pyLower text
  match common_parts.find? (fun part =>
      List.isPrefixOf part.data tl.data && decide (tl.length > part.length)) with
  | some part =>
    [String.mk (text.data.take part.length), String.mk (text.data.drop part.length)]
  | none =>
    match common_parts.find? (fun part =>
        List.isSuffixOf part.data tl.data && decide (tl.length > part.length)) with
    | some part =>
      [String.mk (text.data.take (text.length - part.length)),
       String.mk (text.data.drop (text.length - part.length))]
    | none => [text]

/-- Python `str.split(sep)` for a single-character separator. -/
def splitOnChar (sep : Char) : List Char → List (List Char)
  | [] => [[]]
  | c :: cs =>
    let r := splitOnChar sep cs
    if c == sep then [] :: r
    else
      match r with
      | [] => [[c]]
      | h :: t => (c :: h) :: t

/-- `generate_site_name_from_domain`: the domain's first label,
title-cased as one word or as a two-token split. -/
def generate_site_name_from_domain (domain : String) : String :=
  let name := String.mk ((splitOnChar ('.') domain.data).getD 0 [])
  let parts := splitCamelcase name
  if parts.length > 1 then
    String.join (parts.map pyCapitalize)
  else pyCapitalize name

/-! ### Claim C10 -/

/-- C10: when the old name or the new name is `None` or empty, the
site-name rewrite returns the text unchanged with replacement count 0
(the early return of `replace_site_name_in_text`). -/
theorem c10_falsy_names_noop (text : String) (old_name new_name : Option String)
    (h : old_name = none ∨ old_name = some ("") ∨
         new_name = none ∨ new_name = some ("")) :
    replace_site_name_in_text text old_name new_name = (text, 0) := by
  have hf : (pyFalsy old_name || pyFalsy new_name) = true := by
    rcases h with rfl | rfl | rfl | rfl
    · rfl
    · rfl
    · cases old_name <;> simp [pyFalsy]
    · cases old_name <;> simp [pyFalsy]
  rw [replace_site_name_in_text, if_pos hf]

/-- Witness for C10 at a concrete text and name pair. -/
theorem c10_falsy_names_noop_witness :
    (none = (none : Option String) ∨ (none : Option String) = some ("") ∨
      some ("HealCare") = (none : Option String) ∨ some ("HealCare") = some ("")) ∧
    replace_site_name_in_text ("Welcome to DimVital") none (some ("HealCare")) =
      (("Welcome to DimVital"), 0) :=
  ⟨Or.inl rfl, c10_falsy_names_noop ("Welcome to DimVital") none (some ("HealCare"))
    (Or.inl rfl)⟩

/-! ## DomainDetector (src/utils/domain_detector.py) -/

def pySpace (c : Char) : Bool :=
  c == ' ' || c == Char.ofNat 9 || c == Char.ofNat 10 ||
  c == Char.ofNat 13 || c == Char.ofNat 11 || c == Char.ofNat 12

/-- Python `str.strip()`. -/
def pyStrip (s : String) : String :=
  String.mk (((s.data.dropWhile pySpace).reverse.dropWhile pySpace).reverse)

/-- The character class `[a-zA-Z0-9-]`. -/
def isDomChar (c : Char) : Bool := c.isAlphanum || c == '-'

/-- The alpha-tail loop of a `[a-zA-Z0-9-]+\.[a-zA-Z]{2,}` match with a
trailing-context check `tcheck` (returning how many further characters
the context consumes): given the run length `r` before the dot, try
tail lengths descending (Python's greedy backtracking), at least 2. -/
def domZLoop (l : List Char) (r : Nat) (tcheck : List Char → Option Nat) :
    Nat → Option (List Char × List Char)
  | 0 => none
  | z + 1 =>
    if decide (2 ≤ z + 1) then
      match tcheck (l.drop (r + 1 + (z + 1))) with
      | some t => some (l.take (r + 1 + (z + 1)), l.drop (r + 1 + (z + 1) + t))
      | none => domZLoop l r tcheck z
    else none

/-- The pre-dot run loop: candidate run lengths descending from the
maximal `[a-zA-Z0-9-]` run. -/
def domTryA (l : List Char) (tcheck : List Char → Option Nat) :
    Nat → Option (List Char × List Char)
  | 0 => none
  | r + 1 =>
    if (l.drop (r + 1)).head? == some ('.') then
      match domZLoop l (r + 1) tcheck
          ((l.drop (r + 2)).takeWhile Char.isAlpha).length with
      | some g => some g
      | none => domTryA l tcheck r
    else domTryA l tcheck r

/-- One attempted match of `[a-zA-Z0-9-]+\.[a-zA-Z]{2,}` at the head of
the input followed by a trailing context: returns the matched group and
the remainder after group and context. -/
def matchDomAtT (tcheck : List Char → Option Nat) (l : List Char) :
    Option (List Char × List Char) :=
  domTryA l tcheck (l.takeWhile isDomChar).length

/-- The context-free variant (the pattern ends at the group). -/
def matchDomAt (l : List Char) : Option (List Char × List Char) :=
  matchDomAtT (fun _ => some 0) l

/-- `re.search` for the domain-shaped pattern: first position with a
match, returning the matched group. -/
def searchDom : List Char → Option (List Char)
  | [] => none
  | c :: cs =>
    match matchDomAt (c :: cs) with
    | some (g, _) => some g
    | none => searchDom cs

/-- One attempted match of the date pattern `[_-]?\d{4,8}[_-]?` at the
head of the input: optional separator, 4–8 digits (greedy), optional
separator. -/
def dateMatchAt (l : List Char) : Option Nat :=
  let lead := match l with
    | c :: _ => if c == '-' || c == Char.ofNat 95 then 1 else 0
    | [] => 0
  let rest := l.drop lead
  let d := min (rest.takeWhile Char.isDigit).length 8
  if decide (d < 4) then none
  else
    let trail := match rest.drop d with
      | c :: _ => if c == '-' || c == Char.ofNat 95 then 1 else 0
      | [] => 0
    some (lead + d + trail)

/-- `re.sub(r'[_-]?\d{4,8}[_-]?', '', name)`. -/
def pyDateSub : Nat → List Char → List Char
  | 0, l => l
  | _ + 1, [] => []
  | fuel + 1, c :: cs =>
    match dateMatchAt (c :: cs) with
    | some (k + 1) => pyDateSub fuel (cs.drop k)
    | _ => c :: pyDateSub fuel cs

/-- `re.sub(r':\d+', '', domain)` in `clean_domain`. -/
def pyColonDigitsSub : Nat → List Char → List Char
  | 0, l => l
  | _ + 1, [] => []
  | fuel + 1, c :: cs =>
    if c == (':') && decide (1 ≤ (cs.takeWhile Char.isDigit).length) then
      pyColonDigitsSub fuel (cs.drop (cs.takeWhile Char.isDigit).length)
    else c :: pyColonDigitsSub fuel cs

/-- `clean_domain`: lowercase, strip, drop `www.`, drop `:port`, keep
the part before the first `/`. -/
def clean_domain (domain : String) : String :=
  let d0 := pyStrip (pyLower domain)
  let d1 := pyReplace d0 ("www.") ("")
  let d2 := String.mk (pyColonDigitsSub d1.data.length d1.data)
  String.mk ((splitOnChar ('/') d2.data).getD 0 [])

/-- The detector's denylist of common ecosystem/tracking/service
domains (`ignore_domains`). -/
def ignore_domains : List String :=
  ["google.com", "googleapis.com", "google-analytics.com", "googletagmanager.com",
   "googlesyndication.com", "doubleclick.net", "gstatic.com", "fonts.google.com",
   "maps.google.com", "accounts.google.com",
   "facebook.com", "twitter.com", "instagram.com", "youtube.com", "linkedin.com",
   "pinterest.com", "tiktok.com", "snapchat.com", "vk.com", "ok.ru",
   "fb.com", "t.co", "youtu.be",
   "cloudflare.com", "jsdelivr.net", "unpkg.com", "cdnjs.com", "cdn.jsdelivr.net",
   "stackpath.bootstrapcdn.com", "maxcdn.bootstrapcdn.com", "code.jquery.com",
   "ajax.googleapis.com", "use.fontawesome.com", "fontawesome.com",
   "mailchimp.com", "stripe.com", "paypal.com", "recaptcha.net",
   "w3.org", "schema.org", "creativecommons.org", "wordpress.org",
   "example.com", "example.net", "example.org", "localhost",
   "yandex.ru", "yandex.com", "metrika.yandex.ru", "counter.yadro.ru",
   "mc.yandex.ru", "top-fwz1.mail.ru", "hotjar.com", "crazyegg.com",
   "gravatar.com", "disqus.com", "addthis.com", "sharethis.com"]

/-- `is_valid_domain`: at least 4 chars, dotted, every label matches
`[a-zA-Z0-9-]+`, alphabetic final label, not in the denylist. -/
def is_valid_domain (domain : String) : Bool :=
  decide (4 ≤ domain.length) &&
  domain.data.contains ('.') &&
  (let parts := splitOnChar ('.') domain.data
   decide (2 ≤ parts.length) &&
   parts.all (fun p => !p.isEmpty && p.all isDomChar) &&
   pyIsAlpha (String.mk (parts.getLastD [])) &&
   !(ignore_domains.contains domain))

def two_level_zones : List String := ["co.uk", "com.au", "co.jp", "com.br", "co.za"]

/-- `normalize_to_base_domain`: collapse subdomains to the registrable
form (2 labels, or 3 over a compound country zone). -/
def normalize_to_base_domain (domain : String) : String :=
  let parts := splitOnChar ('.') domain.data
  if decide (2 < parts.length) then
    let last_two := String.mk (List.intercalate ['.'] (parts.drop (parts.length - 2)))
    if two_level_zones.contains last_two then
      if decide (3 < parts.length) then
        String.mk (List.intercalate ['.'] (parts.drop (parts.length - 3)))
      else domain
    else last_two
  else domain

def archive_exts : List String := [".zip", ".rar", ".7z", ".tar", ".gz", ".tar.gz"]

def bundling_suffixes : List String :=
  ["_backup", "-backup", "_archive", "-archive", "_site", "-site",
   "_www", "-www", "_web", "-web"]

/-- The separator reinterpretation step of `extract_domain_from_filename`:
try the last `i` separator-delimited segments as dot-delimited labels,
for `i` descending. -/
def trySepIndices (parts : List (List Char)) : List Nat → Option String
  | [] => none
  | i :: is =>
    let potential := String.mk (List.intercalate ['.'] (parts.drop (parts.length - i)))
    if is_valid_domain potential then some (clean_domain potential)
    else trySepIndices parts is

/-- `extract_domain_from_filename`: strip archive extensions, bundling
suffixes and date-like digit runs; then a direct domain-shaped match,
else hyphen/underscore segments reinterpreted as labels.  The final
"popular zone" probe of the Python code returns `None` on both of its
paths (its success branch is `return None`), so the function ends in
`none` here. -/
def extract_domain_from_filename (filename : String) : Option String :=
  let n0 := pyLower filename
  let n1 := archive_exts.foldl (fun acc e => pyReplace acc e ("")) n0
  let n2 := bundling_suffixes.foldl (fun acc e => pyReplace acc e ("")) n1
  let name := String.mk (pyDateSub n2.data.length n2.data)
  let direct := match searchDom name.data with
    | some g =>
      if is_valid_domain (String.mk g) then some (clean_domain (String.mk g)) else none
    | none => none
  match direct with
  | some d => some d
  | none =>
    [('-' : Char), Char.ofNat 95].foldl (fun acc sep =>
      match acc with
      | some d => some d
      | none =>
        if name.data.contains sep then
          let parts := splitOnChar sep name.data
          if decide (2 ≤ parts.length) then
            trySepIndices parts (if decide (3 ≤ parts.length) then [3, 2] else [2])
          else none
        else none) none

/-! ### Claim C7 -/

/-- C7 (code bug): the function docstring and the spec promise
`"example.com.zip" → "example.com"`, but `is_valid_domain` rejects
`example.com` — it sits in the detector's own `ignore_domains`
denylist — so `extract_domain_from_filename` returns `None` for it.
The other documented cases behave as claimed
(`mysite_net_2024.zip → mysite.net`, `random_backup.rar → NotFound`),
and a non-denylisted name of the same shape works
(`mysite.com.zip → mysite.com`), isolating the denylist as the cause. -/
theorem c7_filename_extraction_bug :
    extract_domain_from_filename ("example.com.zip") = none ∧
    ignore_domains.contains ("example.com") = true ∧
    extract_domain_from_filename ("mysite.com.zip") = some ("mysite.com") ∧
    extract_domain_from_filename ("mysite_net_2024.zip") = some ("mysite.net") ∧
    extract_domain_from_filename ("random_backup.rar") = none := by
  refine ⟨by decide, by decide, by decide, by decide, by decide⟩

/-! ### Priority and frequency pattern matchers

Each matcher tries its `re` pattern at the head of the input
(case-insensitively) and returns the captured domain group and the
remainder after the whole match. -/

def isQuote (c : Char) : Bool := c == '"' || c == Char.ofNat 39

/-- `\s+`. -/
def skipWs1 (l : List Char) : Option (List Char) :=
  let k := (l.takeWhile pySpace).length
  if k = 0 then none else some (l.drop k)

/-- `\s*`. -/
def skipWs0 (l : List Char) : List Char :=
  l.drop (l.takeWhile pySpace).length

/-- A case-insensitive literal (pattern stored lowercase). -/
def litCI (pat : List Char) (l : List Char) : Option (List Char) :=
  if swl pat l then some (l.drop pat.length) else none

def quoteChar : List Char → Option (List Char)
  | c :: cs => if isQuote c then some cs else none
  | [] => none

/-- `(?:www\.)?` and then the domain group, with the optional part
tried greedily first. -/
def wwwDom (l : List Char) : Option (List Char × List Char) :=
  match litCI (lstr ("www.")) l with
  | some r =>
    match matchDomAt r with
    | some g => some g
    | none => matchDomAt l
  | none => matchDomAt l

/-- `(https?://)?(?:www\.)?` and then the domain group (`s` and the
whole scheme optional-greedy, with backtracking). -/
def schemeWwwDom (l : List Char) : Option (List Char × List Char) :=
  match litCI (lstr ("https://")) l with
  | some r =>
    match wwwDom r with
    | some g => some g
    | none => wwwDom l
  | none =>
    match litCI (lstr ("http://")) l with
    | some r =>
      match wwwDom r with
      | some g => some g
      | none => wwwDom l
    | none => wwwDom l

/-- `<base\s+href=["'](https?://)?(?:www\.)?DOM`, weight 100. -/
def matchP1 (l : List Char) : Option (List Char × List Char) :=
  (litCI (lstr ("<base")) l).bind fun r1 =>
  (skipWs1 r1).bind fun r2 =>
  (litCI (lstr ("href=")) r2).bind fun r3 =>
  (quoteChar r3).bind fun r4 =>
  schemeWwwDom r4

/-- `<link\s+rel=["']canonical["']\s+href=["'](https?://)?(?:www\.)?DOM`,
weight 90. -/
def matchP2 (l : List Char) : Option (List Char × List Char) :=
  (litCI (lstr ("<link")) l).bind fun r1 =>
  (skipWs1 r1).bind fun r2 =>
  (litCI (lstr ("rel=")) r2).bind fun r3 =>
  (quoteChar r3).bind fun r4 =>
  (litCI (lstr ("canonical")) r4).bind fun r5 =>
  (quoteChar r5).bind fun r6 =>
  (skipWs1 r6).bind fun r7 =>
  (litCI (lstr ("href=")) r7).bind fun r8 =>
  (quoteChar r8).bind fun r9 =>
  schemeWwwDom r9

/-- `<meta\s+property=["']og:url["']\s+content=["'](https?://)?(?:www\.)?DOM`,
weight 80. -/
def matchP3 (l : List Char) : Option (List Char × List Char) :=
  (litCI (lstr ("<meta")) l).bind fun r1 =>
  (skipWs1 r1).bind fun r2 =>
  (litCI (lstr ("property=")) r2).bind fun r3 =>
  (quoteChar r3).bind fun r4 =>
  (litCI (lstr ("og:url")) r4).bind fun r5 =>
  (quoteChar r5).bind fun r6 =>
  (skipWs1 r6).bind fun r7 =>
  (litCI (lstr ("content=")) r7).bind fun r8 =>
  (quoteChar r8).bind fun r9 =>
  schemeWwwDom r9

def eqColonChar : List Char → Option (List Char)
  | c :: cs => if c == '=' || c == (':') then some cs else none
  | [] => none

/-- `["']site_url["']\s*[=:]\s*["'](?:https?://)?(?:www\.)?DOM`,
weight 70. -/
def matchP4 (l : List Char) : Option (List Char × List Char) :=
  (quoteChar l).bind fun r1 =>
  (litCI (lstr ("site_url")) r1).bind fun r2 =>
  (quoteChar r2).bind fun r3 =>
  (eqColonChar (skipWs0 r3)).bind fun r4 =>
  (quoteChar (skipWs0 r4)).bind fun r5 =>
  schemeWwwDom r5

def commaChar : List Char → Option (List Char)
  | c :: cs => if c == ',' then some cs else none
  | [] => none

/-- `define\(["']WP_(?:HOME|SITEURL)["']\s*,\s*["'](?:https?://)?(?:www\.)?DOM`,
weight 70. -/
def matchP5 (l : List Char) : Option (List Char × List Char) :=
  (litCI (lstr ("define(")) l).bind fun r1 =>
  (quoteChar r1).bind fun r2 =>
  (litCI (lstr ("wp_")) r2).bind fun r3 =>
  (match litCI (lstr ("home")) r3 with
   | some r => some r
   | none => litCI (lstr ("siteurl")) r3).bind fun r4 =>
  (quoteChar r4).bind fun r5 =>
  (commaChar (skipWs0 r5)).bind fun r6 =>
  (quoteChar (skipWs0 r6)).bind fun r7 =>
  schemeWwwDom r7

/-- `https?://(?:www\.)?DOM` (frequency pattern 1). -/
def matchF1 (l : List Char) : Option (List Char × List Char) :=
  match litCI (lstr ("https://")) l with
  | some r => wwwDom r
  | none =>
    match litCI (lstr ("http://")) l with
    | some r => wwwDom r
    | none => none

/-- `www\.DOM` (frequency pattern 2). -/
def matchF2 (l : List Char) : Option (List Char × List Char) :=
  (litCI (lstr ("www.")) l).bind matchDomAt

/-- `["']DOM["']` (frequency pattern 3): the trailing quote is part of
the match but not the group. -/
def matchF3 (l : List Char) : Option (List Char × List Char) :=
  (quoteChar l).bind
    (matchDomAtT (fun rest =>
      match rest with
      | c :: _ => if isQuote c then some 1 else none
      | [] => none))

/-- `\bDOM\b` (frequency pattern 4): word boundaries on both sides. -/
def matchF4 (prev : Option Char) (l : List Char) : Option (List Char × List Char) :=
  if boundaryB prev l.head? then
    matchDomAtT (fun rest => if isWordOpt rest.head? then none else some 0) l
  else none

/-- `re.findall`: scan left to right, resuming after each match; the
previous character is threaded for `\b` checks. -/
def findallF (m : Option Char → List Char → Option (List Char × List Char)) :
    Nat → Option Char → List Char → List (List Char)
  | 0, _, _ => []
  | _ + 1, _, [] => []
  | fuel + 1, prev, c :: cs =>
    match m prev (c :: cs) with
    | some (g, rest) =>
      g :: findallF m fuel
        (((c :: cs).take ((c :: cs).length - rest.length)).getLast?) rest
    | none => findallF m fuel (some c) cs

/-- `extract_domains_from_text`: the four frequency patterns in order,
matches concatenated. -/
def extract_domains_from_text (text : String) : List String :=
  let l := text.data
  ((findallF (fun _ => matchF1) l.length none l) ++
   (findallF (fun _ => matchF2) l.length none l) ++
   (findallF (fun _ => matchF3) l.length none l) ++
   (findallF matchF4 l.length none l)).map String.mk

/-- Insertion-ordered dict update `m[k] = max(m.get(k, 0), w)`. -/
def updMax (m : List (String × Nat)) (k : String) (w : Nat) : List (String × Nat) :=
  match m with
  | [] => [(k, w)]
  | (k', w') :: rest =>
    if k' = k then (k', max w' w) :: rest else (k', w') :: updMax rest k w

/-- Insertion-ordered counter update `m[k] += w`. -/
def updAdd (m : List (String × Nat)) (k : String) (w : Nat) : List (String × Nat) :=
  match m with
  | [] => [(k, w)]
  | (k', w') :: rest =>
    if k' = k then (k', w' + w) :: rest else (k', w') :: updAdd rest k w

/-- `extract_priority_domains`: run the five priority patterns in
order, clean and validate each captured domain, and keep the maximal
weight per cleaned domain. -/
def extract_priority_domains (text : String) : List (String × Nat) :=
  let l := text.data
  let hits :=
    (findallF (fun _ => matchP1) l.length none l).map (fun g => (g, 100)) ++
    (findallF (fun _ => matchP2) l.length none l).map (fun g => (g, 90)) ++
    (findallF (fun _ => matchP3) l.length none l).map (fun g => (g, 80)) ++
    (findallF (fun _ => matchP4) l.length none l).map (fun g => (g, 70)) ++
    (findallF (fun _ => matchP5) l.length none l).map (fun g => (g, 70))
  hits.foldl (fun acc gw =>
    let clean := clean_domain (String.mk gw.1)
    if is_valid_domain clean then updMax acc clean gw.2 else acc) []

/-! ### The directory scan and decision rule -/

/-- The detector's extension→weight table (`file_weights`). -/
def file_weights : List (String × Nat) :=
  [(".html", 3), (".htm", 3), (".php", 3),
   (".xml", 2), (".conf", 2), (".config", 2), (".htaccess", 2), (".env", 2), (".ini", 2),
   (".css", 1), (".js", 1), (".txt", 1), (".json", 1), (".sql", 1),
   (".yaml", 1), (".yml", 1)]

/-- `os.path.splitext(...)[1]` for a plain file name: the suffix from
the last dot, unless every character before it is a dot. -/
def splitextExt (s : String) : String :=
  let l := s.data
  match (l.reverse.findIdx? (fun c => c == '.')) with
  | none => ("")
  | some revPos =>
    let dotIndex := l.length - 1 - revPos
    if (l.take dotIndex).any (fun c => !(c == '.')) then String.mk (l.drop dotIndex)
    else ("")

/-- The detector's `is_text_file`: extension in the weight table. -/
def detectorIsTextFile (fname : String) : Bool :=
  (file_weights.map Prod.fst).contains (pyLower (splitextExt fname))

/-- `get_file_weight`. -/
def get_file_weight (fname : String) : Nat :=
  ((file_weights.lookup (pyLower (splitextExt fname)))).getD 1

/-- A scanned tree is a flat list of `(file name, decoded content)`
pairs in walk order; a file whose decode fails (or is empty) is
modelled with empty content, matching the `if not content: continue`
skip. -/
def scanFiles (files : List (String × String)) :
    List (String × Nat) × List (String × Nat) :=
  files.foldl (fun acc f =>
    if !(detectorIsTextFile f.1) then acc
    else if f.2.data.isEmpty then acc
    else
      let ext := pyLower (splitextExt f.1)
      let fw := get_file_weight f.1
      let prio :=
        if ext = (".html") ∨ ext = (".htm") ∨ ext = (".php") then
          (extract_priority_domains f.2).foldl (fun pm kv => updMax pm kv.1 kv.2) acc.2
        else acc.2
      let weighted := (extract_domains_from_text f.2).foldl (fun wm d =>
          let cleaned := clean_domain d
          if is_valid_domain cleaned then
            updAdd wm (normalize_to_base_domain cleaned) fw
          else wm) acc.1
      (weighted, prio)) ([], [])

/-- First-encountered maximum of an insertion-ordered weight map
(Python's stable descending sort / `most_common(1)`). -/
def argmaxFirst (m : List (String × Nat)) : String × Nat :=
  match m with
  | [] => ((""), 0)
  | x :: xs => xs.foldl (fun best kv => if kv.2 > best.2 then kv else best) x

/-- `detect_domain_in_directory`: if any priority match validated,
return the highest-weight one (ties: first encountered) normalized;
else the highest-tallied frequency domain; else nothing. -/
def detect_domain_in_directory (files : List (String × String)) : Option String :=
  let scan := scanFiles files
  if !scan.2.isEmpty then
    some (normalize_to_base_domain (argmaxFirst scan.2).1)
  else if scan.1.isEmpty then none
  else some ((argmaxFirst scan.1).1)

/-! ### Claim C6 -/

/-- C6: whenever any priority-pattern match in the scanned tree
validates (the priority map is nonempty), `detect_domain_in_directory`
returns the priority entry with the highest weight — ties broken by
first encounter (`argmaxFirst` over the insertion-ordered map) —
normalized to registrable form; and the result depends only on the
priority component, so the frequency tallies are ignored entirely. -/
theorem c6_priority_overrides_frequency (files : List (String × String))
    (h : (scanFiles files).2 ≠ []) :
    detect_domain_in_directory files =
      some (normalize_to_base_domain (argmaxFirst (scanFiles files).2).1) ∧
    (∀ files' : List (String × String),
      (scanFiles files').2 = (scanFiles files).2 →
      detect_domain_in_directory files' = detect_domain_in_directory files) := by
  have heq : ∀ fs : List (String × String), (scanFiles fs).2 ≠ [] →
      detect_domain_in_directory fs =
        some (normalize_to_base_domain (argmaxFirst (scanFiles fs).2).1) := by
    intro fs hfs
    rw [detect_domain_in_directory]
    simp only [Bool.not_eq_true']
    rw [if_pos]
    simp [List.isEmpty_iff, hfs]
  refine ⟨heq files h, fun files' h' => ?_⟩
  rw [heq files' (h' ▸ h), heq files h, h']

/-- The C6 test corpus: one HTML file with a canonical link to `a.com`
and ten HTML files each mentioning `b.com` five times. -/
def c6corpus : List (String × String) :=
  (("index.html"), ("<link rel=\"canonical\" href=\"https://a.com\">")) ::
  List.replicate 10 ((("page.html"), ("b.com b.com b.com b.com b.com")))

/-- Witness for C6: on the corpus, detection returns `a.com` even
though the frequency tally favours `b.com`. -/
theorem c6_priority_overrides_frequency_witness :
    (scanFiles c6corpus).2 ≠ [] ∧
    detect_domain_in_directory c6corpus = some ("a.com") ∧
    (argmaxFirst (scanFiles c6corpus).1).1 = ("b.com") := by
  refine ⟨by decide, ?_, by decide⟩
  rw [(c6_priority_overrides_frequency c6corpus (by decide)).1]
  decide

/-! ## FileProcessor (src/utils/file_processor.py) -/

/-- The `www.`/scheme stripping `replace_domain_in_text` applies to
both domains before building its patterns. -/
def stripDom (d : String) : String :=
  pyReplace (pyReplace (pyReplace d ("www.") ("")) ("http://") ("")) ("https://") ("")

/-- Pass 1 matcher: `https?://(www\.)?OLD` (IGNORECASE), optional parts
greedy-with-backtracking; `oc` is the lowercased escaped old domain. -/
def matchProto (oc : List Char) (l : List Char) : Option Nat :=
  if swl (lstr ("https://")) l then
    if swl (lstr ("www.") ++ oc) (l.drop 8) then some (12 + oc.length)
    else if swl oc (l.drop 8) then some (8 + oc.length)
    else none
  else if swl (lstr ("http://")) l then
    if swl (lstr ("www.") ++ oc) (l.drop 7) then some (11 + oc.length)
    else if swl oc (l.drop 7) then some (7 + oc.length)
    else none
  else none

/-- Pass 2 matcher: `\bwww\.OLD` (IGNORECASE). -/
def matchWwwOld (oc : List Char) (prev : Option Char) (l : List Char) : Option Nat :=
  if boundaryB prev l.head? && swl (lstr ("www.") ++ oc) l then some (4 + oc.length)
  else none

/-- Pass 3 matcher: `\bOLD\b` (IGNORECASE). -/
def matchBareOld (oc : List Char) (prev : Option Char) (l : List Char) : Option Nat :=
  if oc.isEmpty then none
  else if boundaryB prev l.head? && swl oc l &&
      boundaryB ((l.take oc.length).getLast?) ((l.drop oc.length).head?) then
    some oc.length
  else none

/-- Pass 4 matcher: `@OLD` (IGNORECASE). -/
def matchAtOld (oc : List Char) (l : List Char) : Option Nat :=
  if swl ('@' :: oc) l then some (1 + oc.length) else none

/-- `replace_domain_in_text`: strip `www.`/schemes from both domains,
then four ordered case-insensitive passes, each summing its own
replacement count into the total.  (The `new_parts`/`new_name`/
`new_zone` locals of the source are computed but never used by the
replacement lambdas, and are omitted here.) -/
def replace_domain_in_text (text old_domain new_domain : String) : String × Nat :=
  let old_clean := stripDom old_domain
  let new_clean := stripDom new_domain
  let oc := lowerL old_clean.data
  let p1 := subnRun (fun _ l => matchProto oc l)
    (lstr ("https://") ++ new_clean.data) text.data
  let p2 := subnRun (matchWwwOld oc) (lstr ("www.") ++ new_clean.data) p1.1
  let p3 := subnRun (matchBareOld oc) new_clean.data p2.1
  let p4 := subnRun (fun _ l => matchAtOld oc l) ('@' :: new_clean.data) p3.1
  (String.mk p4.1, p1.2 + p2.2 + p3.2 + p4.2)

/-! ### Occurrence counting (for the rewrite claims) -/

/-- The positions at which `pat` occurs in `l` (as a prefix of the
suffix starting there). -/
def occPos (pat l : List Char) : List Nat :=
  (List.range (l.length + 1)).filter (fun j => List.isPrefixOf pat (l.drop j))

def occCount (pat l : List Char) : Nat := (occPos pat l).length

/-! ### Claim C8 -/

/-- C8 counterexample: the text `http://old.comld.comx` contains
exactly one occurrence of `http://old.com` and no other occurrence of
either domain, yet after the rewrite the result still contains
`old.com` — the inserted `https://newsite.info` ends in `o` and the
following `ld.com` of the original text completes a fresh occurrence —
so the claimed "zero occurrences of old.com" fails (count and the
single `https://newsite.info` are as claimed). -/
theorem c8_counterexample :
    occCount (lstr ("old.com")) (lowerL (lstr ("http://old.comld.comx"))) = 1 ∧
    occCount (lstr ("http://old.com")) (lowerL (lstr ("http://old.comld.comx"))) = 1 ∧
    occCount (lstr ("newsite.info")) (lowerL (lstr ("http://old.comld.comx"))) = 0 ∧
    replace_domain_in_text ("http://old.comld.comx") ("old.com") ("newsite.info") =
      (("https://newsite.infold.comx"), 1) ∧
    occCount (lstr ("old.com")) (lowerL (lstr ("https://newsite.infold.comx"))) = 1 := by
  refine ⟨by decide, by decide, by decide, by decide, by decide⟩

/-- `pat` occurs in `l` at position `j`. -/
def OccAt (pat l : List Char) (j : Nat) : Prop := pat <+: l.drop j

theorem occPos_mem {pat l : List Char} {j : Nat} :
    j ∈ occPos pat l ↔ j < l.length + 1 ∧ OccAt pat l j := by
  simp [occPos, List.mem_filter, List.mem_range, OccAt, List.isPrefixOf_iff_prefix]

theorem occAt_lt {pat l : List Char} {j : Nat} (hne : pat ≠ [])
    (h : OccAt pat l j) : j < l.length + 1 := by
  by_contra hc
  have hdrop : l.drop j = [] := List.drop_eq_nil_of_le (by omega)
  rw [OccAt, hdrop] at h
  exact hne (List.prefix_nil.1 h)

theorem occCount_zero_iff {pat l : List Char} (hne : pat ≠ []) :
    occCount pat l = 0 ↔ ∀ j, ¬ OccAt pat l j := by
  rw [occCount, List.length_eq_zero]
  constructor
  · intro h j hj
    have : j ∈ occPos pat l := occPos_mem.2 ⟨occAt_lt hne hj, hj⟩
    rw [h] at this
    exact absurd this (List.not_mem_nil _)
  · intro h
    rw [List.eq_nil_iff_forall_not_mem]
    intro j hj
    exact h j (occPos_mem.1 hj).2

theorem occCount_one_unique {pat l : List Char} {i : Nat}
    (h : occCount pat l = 1) (hi : OccAt pat l i) (hne : pat ≠ []) :
    ∀ j, OccAt pat l j → j = i := by
  intro j hj
  obtain ⟨a, ha⟩ := List.length_eq_one.1 h
  have h1 : j ∈ occPos pat l := occPos_mem.2 ⟨occAt_lt hne hj, hj⟩
  have h2 : i ∈ occPos pat l := occPos_mem.2 ⟨occAt_lt hne hi, hi⟩
  rw [ha, List.mem_singleton] at h1 h2
  rw [h1, h2]

theorem nodup_all_eq_singleton {l : List Nat} {a : Nat} (hnd : l.Nodup)
    (ha : a ∈ l) (hall : ∀ x ∈ l, x = a) : l = [a] := by
  cases l with
  | nil => cases ha
  | cons x xs =>
    have hx : x = a := hall x (List.mem_cons_self _ _)
    subst hx
    cases xs with
    | nil => rfl
    | cons y ys =>
      have hy : y = x := hall y (by simp)
      subst hy
      exact absurd (List.mem_cons_self _ _) (List.nodup_cons.1 hnd).1

theorem occCount_one_of_unique {pat l : List Char} {i : Nat} (hne : pat ≠ [])
    (hi : OccAt pat l i) (huniq : ∀ j, OccAt pat l j → j = i) :
    occCount pat l = 1 := by
  rw [occCount]
  have : occPos pat l = [i] := by
    apply nodup_all_eq_singleton ((List.nodup_range _).filter _)
      (occPos_mem.2 ⟨occAt_lt hne hi, hi⟩)
    exact fun j hj => huniq j (occPos_mem.1 hj).2
  rw [this]
  rfl

theorem occCount_pos_elim {pat l : List Char} (h : occCount pat l = 1) :
    ∃ i, OccAt pat l i := by
  rw [occCount] at h
  obtain ⟨a, ha⟩ := List.length_eq_one.1 h
  exact ⟨a, (occPos_mem.1 (ha ▸ List.mem_singleton_self a)).2⟩

/-! ### Prefix and occurrence toolbox -/

theorem prefix_drop_of_append_prefix {P Q X : List Char}
    (h : (P ++ Q) <+: X) : Q <+: X.drop P.length := by
  obtain ⟨t, ht⟩ := h
  rw [← ht, List.append_assoc, List.drop_left]
  exact ⟨t, rfl⟩

theorem occAt_shift {pat l : List Char} {a j : Nat} :
    OccAt pat (l.drop a) j ↔ OccAt pat l (a + j) := by
  rw [OccAt, OccAt, List.drop_drop]

theorem lowerL_drop (l : List Char) (n : Nat) :
    lowerL (l.drop n) = (lowerL l).drop n := List.map_drop ..

theorem lowerL_take (l : List Char) (n : Nat) :
    lowerL (l.take n) = (lowerL l).take n := List.map_take ..

theorem lowerL_append (a b : List Char) :
    lowerL (a ++ b) = lowerL a ++ lowerL b := List.map_append ..

theorem lowerL_length (l : List Char) : (lowerL l).length = l.length :=
  List.length_map ..

theorem swl_prefix_iff (pat l : List Char) :
    swl pat l = true ↔ pat <+: lowerL l := by
  induction pat generalizing l with
  | nil => simp [swl, lowerL]
  | cons p ps ih =>
    cases l with
    | nil => simp [swl, lowerL]
    | cons c cs =>
      rw [swl, Bool.and_eq_true, ih cs]
      show (c.toLower == p) = true ∧ _ ↔ _
      rw [beq_iff_eq]
      constructor
      · rintro ⟨rfl, h⟩
        exact List.cons_prefix_cons.2 ⟨rfl, h⟩
      · intro h
        obtain ⟨he, ht⟩ := List.cons_prefix_cons.1 h
        exact ⟨he.symm, ht⟩

theorem occAt_of_swl_append {P oc l : List Char} {n : Nat}
    (h : swl (P ++ oc) (l.drop n) = true) : OccAt oc (lowerL l) (n + P.length) := by
  have h1 := (swl_prefix_iff _ _).1 h
  rw [lowerL_drop] at h1
  have h2 := prefix_drop_of_append_prefix h1
  rw [List.drop_drop] at h2
  exact h2

theorem occAt_cons {pat : List Char} {c : Char} {cs : List Char} {j : Nat}
    (h : OccAt pat (lowerL cs) j) : OccAt pat (lowerL (c :: cs)) (j + 1) := by
  rw [OccAt]
  show pat <+: (c.toLower :: lowerL cs).drop (j + 1)
  rw [List.drop_succ_cons]
  exact h

theorem matchProto_occ {oc l : List Char} {k : Nat}
    (h : matchProto oc l = some k) :
    ∃ d, (d = 7 ∨ d = 8 ∨ d = 11 ∨ d = 12) ∧ OccAt oc (lowerL l) d := by
  rw [matchProto] at h
  split at h
  · split at h
    · exact ⟨12, by tauto, occAt_of_swl_append (P := lstr ("www.")) (by assumption)⟩
    · split at h
      · have hs : swl (([] : List Char) ++ oc) (l.drop 8) = true := by assumption
        exact ⟨8, by tauto, occAt_of_swl_append (P := []) hs⟩
      · exact Option.noConfusion h
  · split at h
    · split at h
      · exact ⟨11, by tauto, occAt_of_swl_append (P := lstr ("www.")) (by assumption)⟩
      · split at h
        · have hs : swl (([] : List Char) ++ oc) (l.drop 7) = true := by assumption
          exact ⟨7, by tauto, occAt_of_swl_append (P := []) hs⟩
        · exact Option.noConfusion h
    · exact Option.noConfusion h

theorem matchWwwOld_occ {oc : List Char} {prev : Option Char} {l : List Char}
    {k : Nat} (h : matchWwwOld oc prev l = some k) :
    OccAt oc (lowerL l) 4 := by
  rw [matchWwwOld] at h
  split at h
  next hc =>
    rw [Bool.and_eq_true] at hc
    have hs : swl (lstr ("www.") ++ oc) (l.drop 0) = true := hc.2
    exact occAt_of_swl_append (P := lstr ("www.")) hs
  next => exact Option.noConfusion h

theorem matchBareOld_occ {oc : List Char} {prev : Option Char} {l : List Char}
    {k : Nat} (h : matchBareOld oc prev l = some k) :
    OccAt oc (lowerL l) 0 := by
  rw [matchBareOld] at h
  split at h
  · exact Option.noConfusion h
  · split at h
    next hc =>
      rw [Bool.and_eq_true, Bool.and_eq_true] at hc
      have hs : swl (([] : List Char) ++ oc) (l.drop 0) = true := hc.1.2
      exact occAt_of_swl_append (P := []) hs
    next => exact Option.noConfusion h

theorem matchAtOld_occ {oc l : List Char} {k : Nat}
    (h : matchAtOld oc l = some k) : OccAt oc (lowerL l) 1 := by
  rw [matchAtOld] at h
  split at h
  next hc =>
    have hs : swl (['@'] ++ oc) (l.drop 0) = true := hc
    exact occAt_of_swl_append (P := ['@']) hs
  next => exact Option.noConfusion h

/-- When the matcher implies an `oc`-occurrence and the text has none,
a pass is the identity with count 0. -/
theorem subnAux_id {m : Option Char → List Char → Option Nat} {rep oc : List Char}
    (hm : ∀ prev u k, m prev u = some k → ∃ d, OccAt oc (lowerL u) d) :
    ∀ fuel prev (l : List Char), (∀ j, ¬ OccAt oc (lowerL l) j) →
    subnAux m rep fuel prev l = (l, 0) := by
  intro fuel
  induction fuel with
  | zero => intro prev l _; rfl
  | succ f ih =>
    intro prev l h
    cases l with
    | nil => rfl
    | cons c cs =>
      rw [subnAux]
      cases hmc : m prev (c :: cs) with
      | some k =>
        obtain ⟨d, hd⟩ := hm _ _ _ hmc
        exact absurd hd (h d)
      | none =>
        have ihh := ih (some c) cs (fun j hj => h (j + 1) (occAt_cons hj))
        rw [ihh]

theorem prefix_append_cases {p X Y : List Char} (h : p <+: X ++ Y) :
    p <+: X ∨ X <+: p :=
  List.prefix_or_prefix_of_prefix h (List.prefix_append X Y)

theorem prefix_extend {p X : List Char} (Y : List Char) (h : p <+: X) :
    p <+: X ++ Y :=
  h.trans (List.prefix_append X Y)

theorem prefix_getElem_eq {p l : List Char} (h : p <+: l) {i : Nat}
    (hi : i < p.length) : l[i]? = p[i]? := by
  obtain ⟨t, rfl⟩ := h
  exact List.getElem?_append_left hi

/-- The head-position behaviour of the pass-1 matcher on a text whose
lowering starts with `http://old.com`. -/
theorem matchProto_at_head {l rest : List Char}
    (h : lowerL l = lstr ("http://old.com") ++ rest) :
    matchProto (lstr ("old.com")) l = some 14 := by
  have h1 : swl (lstr ("https://")) l = false := by
    refine Bool.eq_false_iff.2 fun hc => ?_
    have hp := (swl_prefix_iff _ _).1 hc
    rw [h] at hp
    rcases prefix_append_cases hp with hx | hx
    · exact absurd hx (by decide)
    · exact absurd hx (by decide)
  have hd7 : (lowerL l).drop 7 = lstr ("old.com") ++ rest := by
    rw [h, List.drop_append_of_le_length (by decide)]
    rfl
  have h2 : swl (lstr ("http://")) l = true := by
    rw [swl_prefix_iff, h]
    exact prefix_extend _ (by decide)
  have h3 : swl (lstr ("www.") ++ lstr ("old.com")) (l.drop 7) = false := by
    refine Bool.eq_false_iff.2 fun hc => ?_
    have hp := (swl_prefix_iff _ _).1 hc
    rw [lowerL_drop, hd7] at hp
    rcases prefix_append_cases hp with hx | hx
    · exact absurd hx (by decide)
    · exact absurd hx (by decide)
  have h4 : swl (lstr ("old.com")) (l.drop 7) = true := by
    rw [swl_prefix_iff, lowerL_drop, hd7]
    exact List.prefix_append _ _
  rw [matchProto, h1, h2, h3, h4]
  rfl

/-- Success of the pass-1 matcher pins down an `oc` occurrence at one
of four offsets, together with the scheme prefix that produced it. -/
theorem matchProto_occ_scheme {oc l : List Char} {k : Nat}
    (h : matchProto oc l = some k) :
    ∃ d, OccAt oc (lowerL l) d ∧
      ((d = 8 ∨ d = 12) → lstr ("https://") <+: lowerL l) ∧
      ((d = 7 ∨ d = 11) → lstr ("http://") <+: lowerL l) ∧
      (d = 7 ∨ d = 8 ∨ d = 11 ∨ d = 12) := by
  rw [matchProto] at h
  split at h
  next hs =>
    have hsp := (swl_prefix_iff _ _).1 hs
    split at h
    next hw =>
      exact ⟨12, occAt_of_swl_append (P := lstr ("www.")) hw,
        fun _ => hsp, fun hd => by omega, by tauto⟩
    next =>
      split at h
      next ho =>
        have hs8 : swl (([] : List Char) ++ oc) (l.drop 8) = true := ho
        exact ⟨8, occAt_of_swl_append (P := []) hs8,
          fun _ => hsp, fun hd => by omega, by tauto⟩
      next => exact Option.noConfusion h
  next =>
    split at h
    next hs =>
      have hsp := (swl_prefix_iff _ _).1 hs
      split at h
      next hw =>
        exact ⟨11, occAt_of_swl_append (P := lstr ("www.")) hw,
          fun hd => by omega, fun _ => hsp, by tauto⟩
      next =>
        split at h
        next ho =>
          have hs7 : swl (([] : List Char) ++ oc) (l.drop 7) = true := ho
          exact ⟨7, occAt_of_swl_append (P := []) hs7,
            fun hd => by omega, fun _ => hsp, by tauto⟩
        next => exact Option.noConfusion h
    next => exact Option.noConfusion h

theorem lowerL_cons (c : Char) (l : List Char) :
    lowerL (c :: l) = c.toLower :: lowerL l := rfl

theorem lowerL_nil : lowerL [] = [] := rfl

/-- Away from the unique occurrence position, the pass-1 matcher cannot
fire: each candidate scheme offset contradicts either the occurrence
position or a concrete character of `http://`. -/
theorem matchProto_none_mid {A M C : List Char} {a : Char}
    (hM : lowerL M = lstr ("http://old.com"))
    (huniq : ∀ j, OccAt (lstr ("old.com")) (lowerL (a :: (A ++ M ++ C))) j →
      j = A.length + 8) :
    matchProto (lstr ("old.com")) (a :: (A ++ M ++ C)) = none := by
  cases hmc : matchProto (lstr ("old.com")) (a :: (A ++ M ++ C)) with
  | none => rfl
  | some k =>
    exfalso
    obtain ⟨d, hocc, hhttps, hhttp, hd⟩ := matchProto_occ_scheme hmc
    have hda : d = A.length + 8 := huniq d hocc
    have hlow : lowerL (a :: (A ++ M ++ C)) =
        a.toLower :: (lowerL A ++ (lstr ("http://old.com") ++ lowerL C)) := by
      rw [lowerL_cons, lowerL_append, lowerL_append, hM, List.append_assoc]
    rcases hd with rfl | rfl | rfl | rfl
    · omega
    · have hA : A = [] := List.length_eq_zero.1 (by omega)
      subst hA
      have hp := hhttps (Or.inl rfl)
      have h1 := prefix_getElem_eq hp (i := 1) (by decide)
      rw [hlow] at h1
      simp only [lowerL_nil, List.nil_append, List.getElem?_cons_succ] at h1
      rw [List.getElem?_append_left (by decide)] at h1
      exact absurd h1 (by decide)
    · have hA : A.length = 3 := by omega
      obtain ⟨b1, t1, rfl⟩ := List.exists_of_length_succ A hA
      simp only [List.length_cons, Nat.succ_inj] at hA
      obtain ⟨b2, t2, rfl⟩ := List.exists_of_length_succ t1 hA
      simp only [List.length_cons, Nat.succ_inj] at hA
      obtain ⟨b3, t3, rfl⟩ := List.exists_of_length_succ t2 hA
      simp only [List.length_cons, Nat.succ_inj] at hA
      have ht3 : t3 = [] := List.length_eq_zero.1 hA
      subst ht3
      have hp := hhttp (Or.inr rfl)
      have h1 := prefix_getElem_eq hp (i := 4) (by decide)
      rw [hlow] at h1
      simp only [lowerL_cons, lowerL_nil, List.cons_append, List.nil_append,
        List.getElem?_cons_succ] at h1
      rw [List.getElem?_append_left (by decide)] at h1
      exact absurd h1 (by decide)
    · have hA : A.length = 4 := by omega
      obtain ⟨b1, t1, rfl⟩ := List.exists_of_length_succ A hA
      simp only [List.length_cons, Nat.succ_inj] at hA
      obtain ⟨b2, t2, rfl⟩ := List.exists_of_length_succ t1 hA
      simp only [List.length_cons, Nat.succ_inj] at hA
      obtain ⟨b3, t3, rfl⟩ := List.exists_of_length_succ t2 hA
      simp only [List.length_cons, Nat.succ_inj] at hA
      obtain ⟨b4, t4, rfl⟩ := List.exists_of_length_succ t3 hA
      simp only [List.length_cons, Nat.succ_inj] at hA
      have ht4 : t4 = [] := List.length_eq_zero.1 hA
      subst ht4
      have hp := hhttps (Or.inr rfl)
      have h1 := prefix_getElem_eq hp (i := 5) (by decide)
      rw [hlow] at h1
      simp only [lowerL_cons, lowerL_nil, List.cons_append, List.nil_append,
        List.getElem?_cons_succ] at h1
      rw [List.getElem?_append_left (by decide)] at h1
      exact absurd h1 (by decide)

theorem subnAux_cons_match {m : Option Char → List Char → Option Nat}
    {rep : List Char} {fuel : Nat} {prev : Option Char} {c : Char}
    {cs : List Char} {k : Nat} (h : m prev (c :: cs) = some (k + 1)) :
    subnAux m rep (fuel + 1) prev (c :: cs) =
      (rep ++ (subnAux m rep fuel (some ((cs.take k).getLastD c)) (cs.drop k)).1,
       (subnAux m rep fuel (some ((cs.take k).getLastD c)) (cs.drop k)).2 + 1) := by
  rw [subnAux, h]

theorem subnAux_cons_nomatch {m : Option Char → List Char → Option Nat}
    {rep : List Char} {fuel : Nat} {prev : Option Char} {c : Char}
    {cs : List Char} (h : m prev (c :: cs) = none) :
    subnAux m rep (fuel + 1) prev (c :: cs) =
      ((c :: (subnAux m rep fuel (some c) cs).1),
       (subnAux m rep fuel (some c) cs).2) := by
  rw [subnAux, h]

/-- The pass-1 run: on `A ++ M ++ C` whose only (case-insensitive)
`old.com` occurrence is the one inside `M` (the `http://old.com` span),
the first pass replaces exactly that span with `rep` and counts 1. -/
theorem pass1_run (rep : List Char) :
    ∀ (A M C : List Char) (fuel : Nat) (prev : Option Char),
    lowerL M = lstr ("http://old.com") →
    (∀ j, OccAt (lstr ("old.com")) (lowerL (A ++ M ++ C)) j → j = A.length + 7) →
    (∀ j, ¬ OccAt (lstr ("old.com")) (lowerL C) j) →
    (A ++ M ++ C).length ≤ fuel →
    subnAux (fun _ l => matchProto (lstr ("old.com")) l) rep fuel prev (A ++ M ++ C) =
      (A ++ rep ++ C, 1) := by
  have hmocc : ∀ (prev : Option Char) (u : List Char) (k : Nat),
      (fun _ l => matchProto (lstr ("old.com")) l) prev u = some k →
      ∃ d, OccAt (lstr ("old.com")) (lowerL u) d := by
    intro prev u k h
    obtain ⟨d, _, hocc⟩ := matchProto_occ h
    exact ⟨d, hocc⟩
  intro A
  induction A with
  | nil =>
    intro M C fuel prev hM huniq hC hfuel
    have hM14 : M.length = 14 := by
      have h := lowerL_length M
      rw [hM] at h
      exact h.symm
    obtain ⟨m0, M1, rfl⟩ := List.exists_of_length_succ M
      (show M.length = 13 + 1 by omega)
    have hM13 : M1.length = 13 := by
      simp only [List.length_cons] at hM14
      omega
    cases fuel with
    | zero =>
      exfalso
      simp only [List.nil_append, List.length_append, List.length_cons,
        Nat.le_zero] at hfuel
      omega
    | succ f =>
      have hshape : ([] : List Char) ++ (m0 :: M1) ++ C = m0 :: (M1 ++ C) := by simp
      rw [hshape]
      have hlowl : lowerL (m0 :: (M1 ++ C)) = lstr ("http://old.com") ++ lowerL C := by
        rw [← List.cons_append, lowerL_append, hM]
      have hmp : matchProto (lstr ("old.com")) (m0 :: (M1 ++ C)) = some (13 + 1) :=
        matchProto_at_head hlowl
      have hmp2 : (fun (_ : Option Char) l => matchProto (lstr ("old.com")) l) prev
          (m0 :: (M1 ++ C)) = some (13 + 1) := hmp
      rw [subnAux_cons_match hmp2]
      have hdrop : (M1 ++ C).drop 13 = C := by
        rw [← hM13, List.drop_left]
      rw [hdrop]
      rw [subnAux_id hmocc f _ C hC]
      simp
  | cons a A' ih =>
    intro M C fuel prev hM huniq hC hfuel
    have hshape : (a :: A') ++ M ++ C = a :: (A' ++ M ++ C) := by simp
    rw [hshape] at huniq hfuel ⊢
    cases fuel with
    | zero =>
      exfalso
      simp only [List.length_cons, Nat.le_zero] at hfuel
      omega
    | succ f =>
      have huniq8 : ∀ j, OccAt (lstr ("old.com")) (lowerL (a :: (A' ++ M ++ C))) j →
          j = A'.length + 8 := by
        intro j hj
        have := huniq j hj
        simp only [List.length_cons] at this
        omega
      have hnone : (fun (_ : Option Char) l => matchProto (lstr ("old.com")) l) prev
          (a :: (A' ++ M ++ C)) = none := matchProto_none_mid hM huniq8
      rw [subnAux_cons_nomatch hnone]
      have huniq' : ∀ j, OccAt (lstr ("old.com")) (lowerL (A' ++ M ++ C)) j →
          j = A'.length + 7 := by
        intro j hj
        have := huniq8 (j + 1) (occAt_cons hj)
        omega
      have hlen : (A' ++ M ++ C).length ≤ f := by
        simp only [List.length_cons] at hfuel
        omega
      rw [ih M C f (some a) hM huniq' hC hlen]
      simp

theorem prefix_shrink {p X Y : List Char} (h : p <+: X ++ Y)
    (hl : p.length ≤ X.length) : p <+: X := by
  have h2 := List.prefix_iff_eq_take.1 h
  rw [List.take_append_of_le_length hl] at h2
  exact h2 ▸ List.take_prefix _ _

/-- After the pass-1 replacement, no (case-insensitive) `old.com`
occurrence remains, provided the match was not immediately followed by
`ld.com` (the junction case that claim C8 misses). -/
theorem no_oc_result (P S : List Char)
    (huniq : ∀ j, OccAt (lstr ("old.com")) (P ++ lstr ("http://old.com") ++ S) j →
      j = P.length + 7)
    (hld : ¬ (lstr ("ld.com") <+: S)) :
    ∀ j, ¬ OccAt (lstr ("old.com")) (P ++ lstr ("https://newsite.info") ++ S) j := by
  intro j hj
  rw [OccAt, List.append_assoc] at hj
  rcases Nat.lt_or_ge j P.length with hjP | hjP
  · rw [List.drop_append_of_le_length (by omega)] at hj
    rcases le_or_lt (j + 7) P.length with hin | hspan
    · have hP : lstr ("old.com") <+: P.drop j := by
        refine prefix_shrink hj ?_
        rw [List.length_drop]
        show 7 ≤ P.length - j
        omega
      have horig : OccAt (lstr ("old.com")) (P ++ lstr ("http://old.com") ++ S) j := by
        rw [OccAt, List.append_assoc, List.drop_append_of_le_length (by omega)]
        exact prefix_extend _ hP
      have := huniq j horig
      omega
    · have hchar := prefix_getElem_eq hj (i := P.length - j)
        (by show P.length - j < 7; omega)
      rw [List.getElem?_append_right (by rw [List.length_drop])] at hchar
      rw [List.length_drop] at hchar
      have hz : P.length - j - (P.length - j) = 0 := by omega
      rw [hz] at hchar
      rw [List.getElem?_append_left
        (show 0 < (lstr ("https://newsite.info")).length by decide)] at hchar
      have hval : (lstr ("https://newsite.info"))[0]? = some ('h') := by decide
      rw [hval] at hchar
      have hno : ∀ i < 7, (lstr ("old.com"))[i]? ≠ some ('h') := by decide
      exact hno (P.length - j) (by omega) hchar.symm
  · have hj' : lstr ("old.com") <+:
        (lstr ("https://newsite.info") ++ S).drop (j - P.length) := by
      have hje : j = P.length + (j - P.length) := by omega
      rw [hje, List.drop_append] at hj
      exact hj
    have hIlen : (lstr ("https://newsite.info")).length = 20 := by decide
    rcases Nat.lt_or_ge (j - P.length) 20 with hj20 | hj20
    · rw [List.drop_append_of_le_length (by omega)] at hj'
      rcases le_or_lt (j - P.length + 7) 20 with hin | hspan
      · have hI : lstr ("old.com") <+:
            (lstr ("https://newsite.info")).drop (j - P.length) := by
          refine prefix_shrink hj' ?_
          rw [List.length_drop, hIlen]
          show 7 ≤ 20 - (j - P.length)
          omega
        have hno : ∀ x < 14,
            ¬ (lstr ("old.com") <+: (lstr ("https://newsite.info")).drop x) := by
          decide
        exact hno (j - P.length) (by omega) hI
      · rcases prefix_append_cases hj' with hx | hx
        · have hlen := hx.length_le
          rw [List.length_drop, hIlen] at hlen
          have h7 : (lstr ("old.com")).length = 7 := by decide
          omega
        · have h19 : ∀ x < 20, 13 < x →
              ((lstr ("https://newsite.info")).drop x <+: lstr ("old.com")) →
              x = 19 := by decide
          have hj19 : j - P.length = 19 := h19 _ hj20 (by omega) hx
          rw [hj19] at hj'
          have hdrop19 : (lstr ("https://newsite.info")).drop 19 = [('o' : Char)] := by
            decide
          rw [hdrop19] at hj'
          obtain ⟨t, ht⟩ := hj'
          apply hld
          have h2 := congrArg (List.drop 1) ht
          rw [List.drop_append_of_le_length
            (show (1 : Nat) ≤ (lstr ("old.com")).length by decide)] at h2
          have hocdrop : (lstr ("old.com")).drop 1 = lstr ("ld.com") := by decide
          rw [hocdrop] at h2
          have h3 : S = lstr ("ld.com") ++ t := by
            have h4 : ([('o' : Char)] ++ S).drop 1 = S := rfl
            rw [h4] at h2
            exact h2.symm
          exact h3 ▸ List.prefix_append _ _
    · have hSocc : lstr ("old.com") <+: S.drop (j - P.length - 20) := by
        have hje : j - P.length = 20 + (j - P.length - 20) := by omega
        rw [hje, ← hIlen, List.drop_append] at hj'
        exact hj'
      have hPH : (P ++ lstr ("http://old.com")).length = P.length + 14 := by
        rw [List.length_append]
        rfl
      have horig : OccAt (lstr ("old.com")) (P ++ lstr ("http://old.com") ++ S)
          (P.length + 14 + (j - P.length - 20)) := by
        rw [OccAt, show P.length + 14 + (j - P.length - 20) =
          (P ++ lstr ("http://old.com")).length + (j - P.length - 20) from by
            rw [hPH], List.drop_append]
        exact hSocc
      have := huniq _ horig
      omega

/-- In the pass-1 output, the inserted `https://newsite.info` is the
only occurrence of that string, given the original text had no
`newsite.info` anywhere. -/
theorem nwiFull_unique_in_result (P S : List Char)
    (hnwi : ∀ j, ¬ OccAt (lstr ("newsite.info"))
      (P ++ lstr ("http://old.com") ++ S) j) :
    ∀ j, OccAt (lstr ("https://newsite.info"))
      (P ++ lstr ("https://newsite.info") ++ S) j → j = P.length := by
  intro j hj
  rw [OccAt, List.append_assoc] at hj
  rcases Nat.lt_or_ge j P.length with hjP | hjP
  · rw [List.drop_append_of_le_length (by omega)] at hj
    exfalso
    rcases le_or_lt (j + 20) P.length with hin | hspan
    · have hF : lstr ("https://newsite.info") <+: P.drop j := by
        refine prefix_shrink hj ?_
        rw [List.length_drop]
        show 20 ≤ P.length - j
        omega
      have hnw : lstr ("newsite.info") <+: (P.drop j).drop 8 := by
        have : lstr ("https://") ++ lstr ("newsite.info") <+: P.drop j := hF
        have h2 := prefix_drop_of_append_prefix this
        exact h2
      rw [List.drop_drop] at hnw
      apply hnwi (j + 8)
      rw [OccAt, List.append_assoc, List.drop_append_of_le_length (by omega)]
      exact prefix_extend _ hnw
    · have hchar := prefix_getElem_eq hj (i := P.length - j)
        (by show P.length - j < 20; omega)
      rw [List.getElem?_append_right (by rw [List.length_drop])] at hchar
      rw [List.length_drop] at hchar
      have hz : P.length - j - (P.length - j) = 0 := by omega
      rw [hz] at hchar
      rw [List.getElem?_append_left
        (show 0 < (lstr ("https://newsite.info")).length by decide)] at hchar
      have hval : (lstr ("https://newsite.info"))[0]? = some ('h') := by decide
      rw [hval] at hchar
      have hno : ∀ i < 20, 0 < i →
          (lstr ("https://newsite.info"))[i]? ≠ some ('h') := by decide
      exact hno (P.length - j) (by omega) (by omega) hchar.symm
  · have hj' : lstr ("https://newsite.info") <+:
        (lstr ("https://newsite.info") ++ S).drop (j - P.length) := by
      have hje : j = P.length + (j - P.length) := by omega
      rw [hje, List.drop_append] at hj
      exact hj
    have hIlen : (lstr ("https://newsite.info")).length = 20 := by decide
    rcases Nat.eq_or_lt_of_le hjP with heq | hlt
    · omega
    rcases Nat.lt_or_ge (j - P.length) 20 with hj20 | hj20
    · exfalso
      rw [List.drop_append_of_le_length (by omega)] at hj'
      rcases prefix_append_cases hj' with hx | hx
      · have hlen := hx.length_le
        rw [List.length_drop, hIlen] at hlen
        have h20 : (lstr ("https://newsite.info")).length = 20 := by decide
        omega
      · have hno : ∀ x < 20, 0 < x →
            ¬ ((lstr ("https://newsite.info")).drop x <+:
               lstr ("https://newsite.info")) := by decide
        exact hno (j - P.length) hj20 (by omega) hx
    · exfalso
      have hSocc : lstr ("https://newsite.info") <+: S.drop (j - P.length - 20) := by
        have hje : j - P.length = 20 + (j - P.length - 20) := by omega
        rw [hje, ← hIlen, List.drop_append] at hj'
        exact hj'
      have hnw : lstr ("newsite.info") <+: S.drop (j - P.length - 20 + 8) := by
        have h2 := prefix_drop_of_append_prefix
          (show lstr ("https://") ++ lstr ("newsite.info") <+:
            S.drop (j - P.length - 20) from hSocc)
        rw [List.drop_drop] at h2
        exact h2
      apply hnwi (P.length + 14 + (j - P.length - 20 + 8))
      have hPH : (P ++ lstr ("http://old.com")).length = P.length + 14 := by
        rw [List.length_append]
        rfl
      rw [OccAt, show P.length + 14 + (j - P.length - 20 + 8) =
        (P ++ lstr ("http://old.com")).length + (j - P.length - 20 + 8) from by
          rw [hPH], List.drop_append]
      exact hnw

theorem drop_eq_of_length {X Y : List Char} {n : Nat} (h : X.length = n) :
    (X ++ Y).drop n = Y := by
  rw [← h, List.drop_left]

theorem rdit_unfold (t : String) :
    replace_domain_in_text t ("old.com") ("newsite.info") =
      (let p1 := subnRun (fun _ l => matchProto (lstr ("old.com")) l)
        (lstr ("https://newsite.info")) t.data
       let p2 := subnRun (matchWwwOld (lstr ("old.com"))) (lstr ("www.newsite.info")) p1.1
       let p3 := subnRun (matchBareOld (lstr ("old.com"))) (lstr ("newsite.info")) p2.1
       let p4 := subnRun (fun _ l => matchAtOld (lstr ("old.com")) l)
         ('@' :: lstr ("newsite.info")) p3.1
       (String.mk p4.1, p1.2 + p2.2 + p3.2 + p4.2)) := rfl

/-- C8 (amended): for any text with exactly one case-insensitive
occurrence of `http://old.com`, no other occurrence of either domain,
and — the amendment forced by the junction counterexample — no
occurrence of `http://old.comld.com`, the rewrite yields exactly one
`https://newsite.info`, zero `old.com`, and replacement count exactly
1, through the four ordered case-insensitive passes. -/
theorem c8_amended_rewrite (t : String)
    (h1 : occCount (lstr ("old.com")) (lowerL t.data) = 1)
    (h2 : occCount (lstr ("http://old.com")) (lowerL t.data) = 1)
    (h3 : occCount (lstr ("newsite.info")) (lowerL t.data) = 0)
    (h4 : occCount (lstr ("http://old.comld.com")) (lowerL t.data) = 0) :
    (replace_domain_in_text t ("old.com") ("newsite.info")).2 = 1 ∧
    occCount (lstr ("https://newsite.info"))
      (lowerL (replace_domain_in_text t ("old.com") ("newsite.info")).1.data) = 1 ∧
    occCount (lstr ("old.com"))
      (lowerL (replace_domain_in_text t ("old.com") ("newsite.info")).1.data) = 0 := by
  obtain ⟨i, hocc⟩ := occCount_pos_elim h2
  have hibound : i < (lowerL t.data).length + 1 := occAt_lt (by decide) hocc
  rw [lowerL_length] at hibound
  have hile : i ≤ t.data.length := by omega
  -- the decomposition t.data = A ++ M ++ C around the matched span
  have hsplit : t.data = t.data.take i ++ (t.data.drop i).take 14 ++
      (t.data.drop i).drop 14 := by
    rw [List.append_assoc, List.take_append_drop, List.take_append_drop]
  have hA : (t.data.take i).length = i := by
    rw [List.length_take]
    omega
  have hMlow : lowerL ((t.data.drop i).take 14) = lstr ("http://old.com") := by
    rw [lowerL_take, lowerL_drop]
    have hocc2 : lstr ("http://old.com") <+: (lowerL t.data).drop i := hocc
    have h14 := List.prefix_iff_eq_take.1 hocc2
    rw [show (lstr ("http://old.com")).length = 14 from by decide] at h14
    exact h14.symm
  have hoc7 : OccAt (lstr ("old.com")) (lowerL t.data) (i + 7) := by
    have hsp : lstr ("http://") ++ lstr ("old.com") <+: (lowerL t.data).drop i := hocc
    have h2d := prefix_drop_of_append_prefix hsp
    rw [List.drop_drop] at h2d
    exact h2d
  have huniq : ∀ j, OccAt (lstr ("old.com")) (lowerL t.data) j → j = i + 7 :=
    occCount_one_unique h1 hoc7 (by decide)
  have hLeq : lowerL (t.data.take i ++ (t.data.drop i).take 14 ++
      (t.data.drop i).drop 14) = lowerL t.data := by rw [← hsplit]
  have hLsplit : lowerL t.data = lowerL (t.data.take i) ++ lstr ("http://old.com") ++
      lowerL ((t.data.drop i).drop 14) := by
    rw [← hLeq, lowerL_append, lowerL_append, hMlow]
  have hPlen : (lowerL (t.data.take i)).length = i := by
    rw [lowerL_length, hA]
  have hPH : (lowerL (t.data.take i) ++ lstr ("http://old.com")).length = i + 14 := by
    rw [List.length_append, hPlen]
    rfl
  have hCno : ∀ j, ¬ OccAt (lstr ("old.com")) (lowerL ((t.data.drop i).drop 14)) j := by
    intro j hj
    have hop : OccAt (lstr ("old.com")) (lowerL t.data) (i + 14 + j) := by
      rw [OccAt, hLsplit, show i + 14 + j =
        (lowerL (t.data.take i) ++ lstr ("http://old.com")).length + j from by
          rw [hPH], List.drop_append]
      exact hj
    have := huniq _ hop
    omega
  have huniqPS : ∀ j, OccAt (lstr ("old.com")) (lowerL (t.data.take i) ++
      lstr ("http://old.com") ++ lowerL ((t.data.drop i).drop 14)) j →
      j = (lowerL (t.data.take i)).length + 7 := by
    intro j hj
    rw [← hLsplit] at hj
    rw [hPlen]
    exact huniq j hj
  have hnwiL : ∀ j, ¬ OccAt (lstr ("newsite.info")) (lowerL t.data) j :=
    (occCount_zero_iff (by decide)).1 h3
  have hnwiPS : ∀ j, ¬ OccAt (lstr ("newsite.info")) (lowerL (t.data.take i) ++
      lstr ("http://old.com") ++ lowerL ((t.data.drop i).drop 14)) j := by
    intro j hj
    rw [← hLsplit] at hj
    exact hnwiL j hj
  have hld : ¬ (lstr ("ld.com") <+: lowerL ((t.data.drop i).drop 14)) := by
    intro hx
    apply (occCount_zero_iff (show lstr ("http://old.comld.com") ≠ [] by decide)).1 h4 i
    rw [OccAt, hLsplit, List.append_assoc, drop_eq_of_length hPlen]
    obtain ⟨u, hu⟩ := hx
    rw [← hu, show lstr ("http://old.comld.com") =
      lstr ("http://old.com") ++ lstr ("ld.com") from by decide]
    rw [← List.append_assoc]
    exact List.prefix_append _ _
  -- pass 1
  have hrun := pass1_run (lstr ("https://newsite.info")) (t.data.take i)
    ((t.data.drop i).take 14) ((t.data.drop i).drop 14)
    (t.data.take i ++ (t.data.drop i).take 14 ++ (t.data.drop i).drop 14).length none
    hMlow (by
      intro j hj
      rw [hLeq] at hj
      rw [hA]
      exact huniq j hj) hCno (Nat.le_refl _)
  have hp1 : subnRun (fun _ l => matchProto (lstr ("old.com")) l)
      (lstr ("https://newsite.info")) t.data =
      (t.data.take i ++ lstr ("https://newsite.info") ++ (t.data.drop i).drop 14, 1) := by
    conv_lhs => rw [hsplit]
    rw [subnRun]
    exact hrun
  -- the rewritten text and its lowering
  have hRlow : lowerL (t.data.take i ++ lstr ("https://newsite.info") ++
      (t.data.drop i).drop 14) = lowerL (t.data.take i) ++
      lstr ("https://newsite.info") ++ lowerL ((t.data.drop i).drop 14) := by
    rw [lowerL_append, lowerL_append,
      show lowerL (lstr ("https://newsite.info")) = lstr ("https://newsite.info")
        from by decide]
  have hnoR := no_oc_result (lowerL (t.data.take i))
    (lowerL ((t.data.drop i).drop 14)) huniqPS hld
  have hnoR' : ∀ j, ¬ OccAt (lstr ("old.com"))
      (lowerL (t.data.take i ++ lstr ("https://newsite.info") ++
        (t.data.drop i).drop 14)) j := by
    rw [hRlow]
    exact hnoR
  -- passes 2-4 are identities
  have hp2 : subnRun (matchWwwOld (lstr ("old.com"))) (lstr ("www.newsite.info"))
      (t.data.take i ++ lstr ("https://newsite.info") ++ (t.data.drop i).drop 14) =
      (t.data.take i ++ lstr ("https://newsite.info") ++ (t.data.drop i).drop 14, 0) := by
    rw [subnRun]
    exact subnAux_id (fun prev u k h => ⟨4, matchWwwOld_occ h⟩) _ _ _ hnoR'
  have hp3 : subnRun (matchBareOld (lstr ("old.com"))) (lstr ("newsite.info"))
      (t.data.take i ++ lstr ("https://newsite.info") ++ (t.data.drop i).drop 14) =
      (t.data.take i ++ lstr ("https://newsite.info") ++ (t.data.drop i).drop 14, 0) := by
    rw [subnRun]
    exact subnAux_id (fun prev u k h => ⟨0, matchBareOld_occ h⟩) _ _ _ hnoR'
  have hp4 : subnRun (fun _ l => matchAtOld (lstr ("old.com")) l)
      ('@' :: lstr ("newsite.info"))
      (t.data.take i ++ lstr ("https://newsite.info") ++ (t.data.drop i).drop 14) =
      (t.data.take i ++ lstr ("https://newsite.info") ++ (t.data.drop i).drop 14, 0) := by
    rw [subnRun]
    exact subnAux_id (fun prev u k h => ⟨1, matchAtOld_occ h⟩) _ _ _ hnoR'
  have hfinal : replace_domain_in_text t ("old.com") ("newsite.info") =
      (String.mk (t.data.take i ++ lstr ("https://newsite.info") ++
        (t.data.drop i).drop 14), 1) := by
    rw [rdit_unfold t]
    simp only [hp1, hp2, hp3, hp4]
  rw [hfinal]
  refine ⟨rfl, ?_, ?_⟩
  · show occCount (lstr ("https://newsite.info"))
      (lowerL (t.data.take i ++ lstr ("https://newsite.info") ++
        (t.data.drop i).drop 14)) = 1
    rw [hRlow]
    refine occCount_one_of_unique (by decide) ?_
      (nwiFull_unique_in_result _ _ hnwiPS)
    rw [OccAt, List.append_assoc, List.drop_left]
    exact List.prefix_append _ _
  · show occCount (lstr ("old.com"))
      (lowerL (t.data.take i ++ lstr ("https://newsite.info") ++
        (t.data.drop i).drop 14)) = 0
    exact (occCount_zero_iff (by decide)).2 hnoR'

/-- Witness for the amended C8 at a concrete text. -/
theorem c8_amended_rewrite_witness :
    occCount (lstr ("old.com")) (lowerL (lstr ("see http://old.com here"))) = 1 ∧
    occCount (lstr ("http://old.com")) (lowerL (lstr ("see http://old.com here"))) = 1 ∧
    occCount (lstr ("newsite.info")) (lowerL (lstr ("see http://old.com here"))) = 0 ∧
    occCount (lstr ("http://old.comld.com"))
      (lowerL (lstr ("see http://old.com here"))) = 0 ∧
    ((replace_domain_in_text ("see http://old.com here") ("old.com")
        ("newsite.info")).2 = 1 ∧
     occCount (lstr ("https://newsite.info"))
       (lowerL (replace_domain_in_text ("see http://old.com here") ("old.com")
         ("newsite.info")).1.data) = 1 ∧
     occCount (lstr ("old.com"))
       (lowerL (replace_domain_in_text ("see http://old.com here") ("old.com")
         ("newsite.info")).1.data) = 0) :=
  ⟨by decide, by decide, by decide, by decide,
   c8_amended_rewrite ("see http://old.com here") (by decide) (by decide)
     (by decide) (by decide)⟩

/-! ## FileProcessor files and ArchiveHandler naming -/

/-- A file as the processor sees it: name, decoded content (`none`
when opening/decoding fails), and whether a null byte appears in the
first 512 bytes (the sniff for unknown extensions). -/
structure PFile where
  name : String
  content : Option String
  sniffNull : Bool
deriving DecidableEq

def fpText_extensions : List String :=
  [".html", ".htm", ".php", ".css", ".js", ".txt",
   ".json", ".xml", ".sql", ".conf", ".config",
   ".htaccess", ".env", ".ini", ".yaml", ".yml",
   ".md", ".rst", ".py", ".java", ".cpp", ".c", ".h"]

def fpBinary_extensions : List String :=
  [".jpg", ".jpeg", ".png", ".gif", ".bmp", ".ico",
   ".pdf", ".doc", ".docx", ".xls", ".xlsx",
   ".zip", ".rar", ".7z", ".tar", ".gz",
   ".mp3", ".mp4", ".avi", ".mov", ".flv",
   ".exe", ".dll", ".so", ".dylib"]

/-- The processor's `is_text_file`: denylist, then allowlist, then the
null-byte sniff (a file that cannot be opened counts as binary). -/
def fpIsTextFile (f : PFile) : Bool :=
  let ext := pyLower (splitextExt f.name)
  if fpBinary_extensions.contains ext then false
  else if fpText_extensions.contains ext then true
  else
    match f.content with
    | none => false
    | some _ => !f.sniffNull

structure FPResult where
  success : Bool
  replacements : Nat
  error : Option String
deriving DecidableEq

/-- `process_file`: binary → no-op success; text → domain replacement
only (`replace_domain_in_text`), written back exactly when its count is
positive.  The write itself is modelled as always succeeding (the
`cannot_write_file` branch is external I/O).  Note that the site-name
rewrite is never invoked here. -/
def process_file (f : PFile) (old_domain new_domain : String) : FPResult × PFile :=
  if !(fpIsTextFile f) then
    (⟨true, 0, some ("binary_file_skipped")⟩, f)
  else
    match f.content with
    | none => (⟨false, 0, some ("cannot_read_file")⟩, f)
    | some content =>
      let r := replace_domain_in_text content old_domain new_domain
      if r.2 > 0 then
        (⟨true, r.2, none⟩, { f with content := some r.1 })
      else
        (⟨true, 0, none⟩, f)

structure DirStats where
  total_files : Nat
  processed_files : Nat
  skipped_files : Nat
  error_files : Nat
  total_replacements : Nat

/-- `process_directory` (the 3-parameter function of
`file_processor.py`): walk every file, tally the stats. -/
def process_directory (files : List PFile) (old_domain new_domain : String) :
    DirStats × List PFile :=
  files.foldl (fun acc f =>
    let r := process_file f old_domain new_domain
    let s := acc.1
    let s' :=
      if r.1.success then
        if r.1.error = some ("binary_file_skipped") then
          { s with total_files := s.total_files + 1,
                   skipped_files := s.skipped_files + 1 }
        else
          { s with total_files := s.total_files + 1,
                   processed_files := s.processed_files + 1,
                   total_replacements := s.total_replacements + r.1.replacements }
      else
        { s with total_files := s.total_files + 1,
                 error_files := s.error_files + 1 }
    (s', acc.2 ++ [r.2])) (⟨0, 0, 0, 0, 0⟩, [])

/-- `get_archive_name_from_domain` (archive_handler.py). -/
def get_archive_name_from_domain (domain : String) : String :=
  pyReplace (pyReplace domain ("/") ("_")) ("\\") ("_") ++ (".zip")

/-! ## BatchProcessor (batch_processor.py)

The orchestrator.  External effects are abstracted into an environment:
extraction success, the extracted file tree (name, decoded content),
the site-name scan result, and per-copy zip success.  Python call
compatibility is modelled explicitly: a call raises `TypeError` unless
every positional argument has a parameter slot and every keyword
argument names a remaining parameter.  The exact CPython message
wording (with its quotation marks) is abbreviated; only its identity
matters here.  The `stats` sub-dict of a package result is omitted
(it restates `generated_archives`). -/

/-- Parameters of `DomainDetector.detect_domain_in_directory`
(`self` excluded). -/
def detect_domain_in_directory_params : List String := ["directory"]

/-- Parameters of `FileProcessor.process_directory` (`self` excluded). -/
def process_directory_params : List String :=
  ["directory", "old_domain", "new_domain"]

/-- Whether a Python call with `posArgs` positional arguments and the
given keyword-argument names binds against a parameter list with no
defaults beyond those irrelevant here. -/
def pyCallOk (params : List String) (posArgs : Nat) (kwargs : List String) : Bool :=
  decide (posArgs ≤ params.length) &&
    kwargs.all (fun k => (params.drop posArgs).contains k)

def detect_kwarg_error : String :=
  "TypeError: detect_domain_in_directory got an unexpected keyword argument hint_from_filename"

def process_directory_arity_error : String :=
  "TypeError: process_directory takes 4 positional arguments but 6 were given"

/-- One source package as the orchestrator sees it. -/
structure ArchiveEnv where
  archive_name : String
  extract_ok : Bool
  tree : List (String × String)
  site_name : Option String
  zip_ok : Nat → Bool

/-- A package result (the dict built by `process_single_archive`);
`generated_archives` entries are (archive file name, new domain). -/
structure ArchiveRes where
  success : Bool
  archive_name : String
  original_domain : Option String
  generated_archives : List (String × String)
  error : Option String
deriving DecidableEq

/-- The call `detect_domain_in_directory(extract_dir,
hint_from_filename=hint)` at batch_processor.py:84: checked against
the callee signature, then (were it compatible) the directory scan. -/
def detectCall (env : ArchiveEnv) : Except String String :=
  if pyCallOk detect_domain_in_directory_params 1 [("hint_from_filename")] then
    match detect_domain_in_directory env.tree with
    | some d => Except.ok d
    | none => Except.error ("Не удалось определить домен")
  else Except.error detect_kwarg_error

/-- The per-copy loop of `process_single_archive` (steps 5): copy the
tree, derive the new site name, call `process_directory` with five
arguments (checked against its three-parameter signature), archive the
copy when zipping succeeds.  An exception aborts the whole package. -/
def copyLoop (env : ArchiveEnv) (original_domain : String) :
    List String → Nat → List (String × String) →
    Except String (List (String × String))
  | [], _, acc => Except.ok acc
  | nd :: rest, idx, acc =>
    let _new_site_name := generate_site_name_from_domain nd
    if pyCallOk process_directory_params 5 [] then
      let copyFiles := env.tree.map (fun f => PFile.mk f.1 (some f.2) false)
      let _stats := process_directory copyFiles original_domain nd
      let acc2 :=
        if env.zip_ok idx then acc ++ [(get_archive_name_from_domain nd, nd)]
        else acc
      copyLoop env original_domain rest (idx + 1) acc2
    else Except.error process_directory_arity_error

/-- Step 3 of `process_single_archive`: the filename hint when it is a
full domain, otherwise the content-scan call. -/
def psaDomain (env : ArchiveEnv) : Except String String :=
  match extract_domain_from_filename env.archive_name with
  | some d => if d.data.contains ('.') then Except.ok d else detectCall env
  | none => detectCall env

/-- Steps 4-6 of `process_single_archive`: domain generation and the
copy loop over the resolved original domain. -/
def psaCopies (env : ArchiveEnv) (o : Nat → Nat) (cfg : GenConfig)
    (copies_count : Nat) (domain_zone : String) (gs : GenState)
    (original_domain : String) : ArchiveRes × GenState :=
  match copyLoop env original_domain
      (generate_domains o cfg original_domain domain_zone copies_count gs).1 0 [] with
  | Except.ok archives =>
    (⟨true, env.archive_name, some original_domain, archives, none⟩,
     (generate_domains o cfg original_domain domain_zone copies_count gs).2)
  | Except.error e =>
    (⟨false, env.archive_name, some original_domain, [], some e⟩,
     (generate_domains o cfg original_domain domain_zone copies_count gs).2)

/-- `process_single_archive`: extraction, domain resolution
(filename-hint full-domain override, else the content-scan call),
site-name detection (the compatible two-positional-argument call,
abstracted by `env.site_name`), domain generation, the copy loop;
any raised exception is caught and stored as the error string. -/
def process_single_archive (env : ArchiveEnv) (o : Nat → Nat) (cfg : GenConfig)
    (copies_count : Nat) (domain_zone : String) (gs : GenState) :
    ArchiveRes × GenState :=
  if !env.extract_ok then
    (⟨false, env.archive_name, none, [], some ("Ошибка распаковки архива")⟩, gs)
  else
    match psaDomain env with
    | Except.error e => (⟨false, env.archive_name, none, [], some e⟩, gs)
    | Except.ok original_domain =>
      let _original_site_name := env.site_name
      psaCopies env o cfg copies_count domain_zone gs original_domain

/-- On successful extraction, the package result is determined by the
domain-resolution outcome: a raised `TypeError` or a scan miss aborts
the package with that message. -/
theorem psa_err (env : ArchiveEnv) (o : Nat → Nat) (cfg : GenConfig)
    (copies_count : Nat) (domain_zone : String) (gs : GenState) (e : String)
    (hex : env.extract_ok = true) (hdom : psaDomain env = Except.error e) :
    process_single_archive env o cfg copies_count domain_zone gs =
      (⟨false, env.archive_name, none, [], some e⟩, gs) := by
  unfold process_single_archive
  rw [hex, hdom]
  rfl

/-- On successful extraction and domain resolution, the package result
is that of the copy phase. -/
theorem psa_ok (env : ArchiveEnv) (o : Nat → Nat) (cfg : GenConfig)
    (copies_count : Nat) (domain_zone : String) (gs : GenState) (dd : String)
    (hex : env.extract_ok = true) (hdom : psaDomain env = Except.ok dd) :
    process_single_archive env o cfg copies_count domain_zone gs =
      psaCopies env o cfg copies_count domain_zone gs dd := by
  unfold process_single_archive
  rw [hex, hdom]
  rfl

/-- The spec wording of `processFile` (refinement target, written from
the spec, to compare with `process_file`): a text file runs the domain
rewrite and then the site-name rewrite, writing back iff the total
replacement count is positive. -/
def process_file_spec (f : PFile) (old_domain new_domain : String)
    (old_name new_name : Option String) : FPResult × PFile :=
  if !(fpIsTextFile f) then
    (⟨true, 0, some ("binary_file_skipped")⟩, f)
  else
    match f.content with
    | none => (⟨false, 0, some ("cannot_read_file")⟩, f)
    | some content =>
      let r1 := replace_domain_in_text content old_domain new_domain
      let r2 := replace_site_name_in_text r1.1 old_name new_name
      if r1.2 + r2.2 > 0 then
        (⟨true, r1.2 + r2.2, none⟩, { f with content := some r2.1 })
      else
        (⟨true, 0, none⟩, f)

/-- A whole batch run: the packages, the generation parameters, and the
external effects of `process_multiple_archives` (progress callback
presence and which of its top-level invocations raises, `os.makedirs`
success, master-archive creation success). -/
structure BatchEnv where
  archives : List ArchiveEnv
  copies_count : Nat
  domain_zone : String
  oracle : Nat → Nat
  cfg : GenConfig
  hasCallback : Bool
  cbFails : Nat → Bool
  makedirs_ok : Bool
  master_ok : Bool

/-- The overall-result dict of `process_multiple_archives`; `errors`
entries are (archive label, message). -/
structure BatchRes where
  success : Bool
  archives_processed : Nat
  archives_failed : Nat
  total_sites_created : Nat
  master_archive_path : Option String
  results : List ArchiveRes
  errors : List (String × String)
deriving DecidableEq

/-- The `n`-th top-level `progress_callback(...)` invocation: skipped
when no callback was given, otherwise it may raise. -/
def cbCall (env : BatchEnv) (n : Nat) : Except String Nat :=
  if env.hasCallback && env.cbFails n then Except.error ("callback raised")
  else Except.ok (n + 1)

/-- Processing one package inside the multi-archive loop (the inner
`process_single_archive` call with the batch parameters). -/
def stepRes (env : BatchEnv) (a : ArchiveEnv) (gs : GenState) :
    ArchiveRes × GenState :=
  process_single_archive a env.oracle env.cfg env.copies_count env.domain_zone gs

/-- The overall-result tallying after one package of the loop. -/
def stepAcc (env : BatchEnv) (a : ArchiveEnv) (gs : GenState) (acc : BatchRes) :
    BatchRes :=
  if (stepRes env a gs).1.success then
    { acc with results := acc.results ++ [(stepRes env a gs).1],
               archives_processed := acc.archives_processed + 1,
               total_sites_created := acc.total_sites_created +
                 (stepRes env a gs).1.generated_archives.length }
  else
    { acc with results := acc.results ++ [(stepRes env a gs).1],
               archives_failed := acc.archives_failed + 1,
               errors := acc.errors ++
                 [(a.archive_name, (stepRes env a gs).1.error.getD ("Unknown error"))] }

/-- The collected generated-archive paths after one package. -/
def stepPaths (env : BatchEnv) (a : ArchiveEnv) (gs : GenState)
    (paths : List String) : List String :=
  paths ++ (if (stepRes env a gs).1.success then
    (stepRes env a gs).1.generated_archives.map Prod.fst else [])

/-- The per-archive loop of `process_multiple_archives`: progress
message, package processing, tallying; a raised exception carries the
accumulated overall result out to the top-level handler. -/
def batchLoop (env : BatchEnv) :
    List ArchiveEnv → Nat → GenState → BatchRes → List String →
    Except (String × BatchRes) (Nat × GenState × BatchRes × List String)
  | [], n, gs, acc, paths => Except.ok (n, gs, acc, paths)
  | a :: rest, n, gs, acc, paths =>
    match cbCall env n with
    | Except.error e => Except.error (e, acc)
    | Except.ok n2 =>
      batchLoop env rest n2 (stepRes env a gs).2 (stepAcc env a gs acc)
        (stepPaths env a gs paths)

/-- The master-archive phase: `os.makedirs` (which may raise) and
`create_master_archive` (which returns a bool), entered only when some
generated archives exist. -/
def masterStep (env : BatchEnv) (paths : List String) (acc : BatchRes) :
    Except (String × BatchRes) BatchRes :=
  if paths.isEmpty then Except.ok acc
  else if !env.makedirs_ok then Except.error (("makedirs failed"), acc)
  else if env.master_ok then
    Except.ok { acc with master_archive_path := some ("duplicates.zip"),
                         success := true }
  else Except.ok acc

/-- The whole `try` body of `process_multiple_archives`: the loop, the
master-archive progress message, the master phase, the cleanup progress
message.  An `Except.error` is an exception escaping the body. -/
def batchBody (env : BatchEnv) (gs : GenState) : Except (String × BatchRes) BatchRes :=
  match batchLoop env env.archives 0 gs ⟨false, 0, 0, 0, none, [], []⟩ [] with
  | Except.error p => Except.error p
  | Except.ok q =>
    match cbCall env q.1 with
    | Except.error e => Except.error (e, q.2.2.1)
    | Except.ok n2 =>
      match masterStep env q.2.2.2 q.2.2.1 with
      | Except.error p => Except.error p
      | Except.ok acc2 =>
        match cbCall env n2 with
        | Except.error e => Except.error (e, acc2)
        | Except.ok _ => Except.ok acc2

/-- `process_multiple_archives`.  The second component records whether
`cleanup_directory(temp_base_dir)` was reached: the cleanup sits at the
end of the `try` body (there is no `finally`), so it runs exactly when
no exception escaped the body.  A raised exception is caught by the
top-level handler, which appends a `general` error to the result
accumulated so far.  The timestamped master-archive name is modelled by
a constant. -/
def process_multiple_archives (env : BatchEnv) (gs : GenState) : BatchRes × Bool :=
  match batchBody env gs with
  | Except.ok acc => (acc, true)
  | Except.error p => ({ p.2 with errors := p.2.errors ++ [(("general"), p.1)] }, false)

/-- The per-package results of processing a package list in order,
threading the generator state (what the loop collects when nothing
raises at top level). -/
def pureResults (env : BatchEnv) : List ArchiveEnv → GenState → List ArchiveRes
  | [], _ => []
  | a :: rest, gs => (stepRes env a gs).1 :: pureResults env rest (stepRes env a gs).2

/-- **C1** (code bug).  When the filename hint yields no fully
qualified domain, the claimed fallback to content scanning never
happens: the call at batch_processor.py:84 passes the keyword argument
`hint_from_filename`, which `detect_domain_in_directory` does not
accept, so a `TypeError` is raised and caught, and the package fails
with that message — not with the documented reason, and regardless of
the extracted tree (here one whose scan would in fact find a valid
domain). -/
theorem c1_hint_fallback_typeerror (env : ArchiveEnv) (o : Nat → Nat)
    (cfg : GenConfig) (copies_count : Nat) (domain_zone : String) (gs : GenState)
    (hex : env.extract_ok = true)
    (hhint : ∀ d, extract_domain_from_filename env.archive_name = some d →
      d.data.contains ('.') = false)
    (_hdet : detect_domain_in_directory env.tree ≠ none) :
    pyCallOk detect_domain_in_directory_params 1 [("hint_from_filename")] = false ∧
    detect_kwarg_error ≠ ("Не удалось определить домен") ∧
    process_single_archive env o cfg copies_count domain_zone gs =
      (⟨false, env.archive_name, none, [], some detect_kwarg_error⟩, gs) := by
  refine ⟨by decide, by decide, ?_⟩
  have hdc : detectCall env = Except.error detect_kwarg_error := rfl
  have hdom : psaDomain env = Except.error detect_kwarg_error := by
    unfold psaDomain
    cases hfn : extract_domain_from_filename env.archive_name with
    | none => exact hdc
    | some d =>
      show (if d.data.contains ('.') = true then Except.ok d else detectCall env) =
        Except.error detect_kwarg_error
      rw [hhint d hfn]
      exact hdc
  exact psa_err env o cfg copies_count domain_zone gs detect_kwarg_error hex hdom

def c1tree : List (String × String) :=
  [(("index.html"), ("<link rel=\"canonical\" href=\"https://oldsite.com\">"))]

def c1env : ArchiveEnv :=
  ⟨("random_backup.rar"), true, c1tree, some ("OldSite"), fun _ => true⟩

/-- Witness for C1 at a hint-less archive name over a tree whose scan
finds `oldsite.com`. -/
theorem c1_hint_fallback_typeerror_witness :
    c1env.extract_ok = true ∧
    extract_domain_from_filename c1env.archive_name = none ∧
    detect_domain_in_directory c1env.tree = some ("oldsite.com") ∧
    (pyCallOk detect_domain_in_directory_params 1 [("hint_from_filename")] = false ∧
     detect_kwarg_error ≠ ("Не удалось определить домен") ∧
     process_single_archive c1env (fun _ => 0) defaultGenConfig 3 (".com") ⟨0, []⟩ =
       (⟨false, c1env.archive_name, none, [], some detect_kwarg_error⟩, ⟨0, []⟩)) :=
  ⟨rfl, by decide, by decide,
   c1_hint_fallback_typeerror c1env (fun _ => 0) defaultGenConfig 3 (".com") ⟨0, []⟩
     rfl
     (fun d hd => by
       rw [(by decide : extract_domain_from_filename c1env.archive_name = none)] at hd
       exact Option.noConfusion hd)
     (by decide)⟩

/-- The five-positional-argument `process_directory` call raises on the
first copy, whatever the copy is. -/
theorem copyLoop_cons_err (env : ArchiveEnv) (od nd : String) (rest : List String)
    (idx : Nat) (acc : List (String × String)) :
    copyLoop env od (nd :: rest) idx acc =
      Except.error process_directory_arity_error := rfl

/-- `process_single_archive` under a full-domain filename hint and at
least one requested copy: the copy loop aborts on its first iteration
with the arity `TypeError`. -/
theorem psa_full_hint (env : ArchiveEnv) (o : Nat → Nat) (cfg : GenConfig)
    (m : Nat) (domain_zone : String) (gs : GenState) (d : String)
    (hex : env.extract_ok = true)
    (hfull : extract_domain_from_filename env.archive_name = some d)
    (hdot : d.data.contains ('.') = true) :
    process_single_archive env o cfg (m + 1) domain_zone gs =
      (⟨false, env.archive_name, some d, [], some process_directory_arity_error⟩,
       (generate_domains o cfg d domain_zone (m + 1) gs).2) := by
  have hdom : psaDomain env = Except.ok d := by
    unfold psaDomain
    rw [hfull]
    show (if d.data.contains ('.') = true then Except.ok d else detectCall env) =
      Except.ok d
    rw [hdot]
    rfl
  have hcons : (generate_domains o cfg d domain_zone (m + 1) gs).1 =
      (generate_domain o cfg gs d domain_zone).1 ::
        (generate_domains o cfg d domain_zone m
          (generate_domain o cfg gs d domain_zone).2).1 := rfl
  rw [psa_ok env o cfg (m + 1) domain_zone gs d hex hdom]
  unfold psaCopies
  rw [hcons, copyLoop_cons_err]

def c2file : PFile := PFile.mk ("page.html") (some ("Welcome to OldSite")) false

/-- **C2** (code bug).  The claimed per-copy tree rewrite never runs:
the orchestrator calls `process_directory` with five arguments against
its three-parameter signature, so every package that reaches the copy
loop fails with a `TypeError` and produces no archives; and at the file
level `process_file` applies only the domain rewrite — a text file
whose content the domain pass leaves untouched is returned unchanged,
whatever site names it contains, diverging from the spec-worded
`process_file_spec`, which rewrites the site name. -/
theorem c2_tree_rewrite_typeerror (env : ArchiveEnv) (o : Nat → Nat)
    (cfg : GenConfig) (copies_count : Nat) (domain_zone : String) (gs : GenState)
    (d : String)
    (hex : env.extract_ok = true)
    (hfull : extract_domain_from_filename env.archive_name = some d)
    (hdot : d.data.contains ('.') = true)
    (hcopies : 0 < copies_count) :
    pyCallOk process_directory_params 5 [] = false ∧
    ((process_single_archive env o cfg copies_count domain_zone gs).1.success = false ∧
     (process_single_archive env o cfg copies_count domain_zone gs).1.error =
       some process_directory_arity_error ∧
     (process_single_archive env o cfg copies_count domain_zone gs).1.generated_archives
       = []) ∧
    (∀ f : PFile, ∀ c old new, fpIsTextFile f = true → f.content = some c →
      (replace_domain_in_text c old new).2 = 0 →
      process_file f old new = (⟨true, 0, none⟩, f)) ∧
    ((process_file c2file ("old.com") ("new.net")).2 = c2file ∧
     (process_file_spec c2file ("old.com") ("new.net")
        (some ("OldSite")) (some ("NewNet"))).2.content =
       some ("Welcome to NewNet")) := by
  obtain ⟨m, rfl⟩ : ∃ m, copies_count = m + 1 :=
    ⟨copies_count - 1, by omega⟩
  rw [psa_full_hint env o cfg m domain_zone gs d hex hfull hdot]
  refine ⟨by decide, ⟨rfl, rfl, rfl⟩, ?_, by decide, by decide⟩
  intro f c old new ht hc hz
  simp [process_file, ht, hc, hz]

def c2env : ArchiveEnv := ⟨("mysite.com.zip"), true, [], none, fun _ => true⟩

/-- Witness for C2 at the archive `mysite.com.zip` with two copies. -/
theorem c2_tree_rewrite_typeerror_witness :
    c2env.extract_ok = true ∧
    extract_domain_from_filename c2env.archive_name = some ("mysite.com") ∧
    ("mysite.com").data.contains ('.') = true ∧
    0 < 2 ∧
    (pyCallOk process_directory_params 5 [] = false ∧
     ((process_single_archive c2env (fun _ => 0) defaultGenConfig 2 (".com")
        ⟨0, []⟩).1.success = false ∧
      (process_single_archive c2env (fun _ => 0) defaultGenConfig 2 (".com")
        ⟨0, []⟩).1.error = some process_directory_arity_error ∧
      (process_single_archive c2env (fun _ => 0) defaultGenConfig 2 (".com")
        ⟨0, []⟩).1.generated_archives = []) ∧
     (∀ f : PFile, ∀ c old new, fpIsTextFile f = true → f.content = some c →
       (replace_domain_in_text c old new).2 = 0 →
       process_file f old new = (⟨true, 0, none⟩, f)) ∧
     ((process_file c2file ("old.com") ("new.net")).2 = c2file ∧
      (process_file_spec c2file ("old.com") ("new.net")
         (some ("OldSite")) (some ("NewNet"))).2.content =
        some ("Welcome to NewNet"))) :=
  ⟨rfl, by decide, by decide, by decide,
   c2_tree_rewrite_typeerror c2env (fun _ => 0) defaultGenConfig 2 (".com") ⟨0, []⟩
     ("mysite.com") rfl (by decide) (by decide) (by decide)⟩

/-- With no progress callback the top-level invocations cannot raise. -/
theorem cbCall_ok (env : BatchEnv) (h : env.hasCallback = false) (n : Nat) :
    cbCall env n = Except.ok (n + 1) := by
  unfold cbCall
  rw [h, Bool.false_and]
  rfl

/-- One loop iteration under a non-raising callback. -/
theorem batchLoop_cons (env : BatchEnv) (h : env.hasCallback = false)
    (a : ArchiveEnv) (rest : List ArchiveEnv) (n : Nat) (gs : GenState)
    (acc : BatchRes) (paths : List String) :
    batchLoop env (a :: rest) n gs acc paths =
      batchLoop env rest (n + 1) (stepRes env a gs).2 (stepAcc env a gs acc)
        (stepPaths env a gs paths) := by
  conv_lhs => rw [batchLoop]
  rw [cbCall_ok env h n]

/-- Tallying appends exactly the package result, on success and on
failure alike. -/
theorem stepAcc_results (env : BatchEnv) (a : ArchiveEnv) (gs : GenState)
    (acc : BatchRes) :
    (stepAcc env a gs acc).results = acc.results ++ [(stepRes env a gs).1] := by
  unfold stepAcc
  cases hs : (stepRes env a gs).1.success <;> simp [hs]

/-- When the output directory is creatable the master phase cannot
raise and never touches the collected per-package results. -/
theorem masterStep_ok (env : BatchEnv) (hmk : env.makedirs_ok = true)
    (paths : List String) (acc : BatchRes) :
    ∃ acc3, masterStep env paths acc = Except.ok acc3 ∧
      acc3.results = acc.results := by
  unfold masterStep
  rw [hmk]
  cases hp : paths.isEmpty
  · cases hm : env.master_ok
    · exact ⟨acc, by simp [hp, hm], rfl⟩
    · exact ⟨{ acc with master_archive_path := some ("duplicates.zip"), success := true }, by simp [hp, hm], rfl⟩
  · exact ⟨acc, by simp [hp], rfl⟩

def c9cex : BatchEnv :=
  ⟨[⟨("mysite.com.zip"), true, [], none, fun _ => true⟩], 1, (".com"),
   fun _ => 0, defaultGenConfig, true, fun n => !(n == 0), true, true⟩

/-- **C9** counterexample: one package is processed and its result
recorded, then the master-archive progress callback raises; the
exception is caught and recorded as a `general` batch error with the
per-package result preserved — but the temp-directory cleanup, sitting
inside the `try` body rather than a `finally`, is skipped on this exit
path, refuting cleanup on every exit path. -/
theorem c9_counterexample :
    (process_multiple_archives c9cex ⟨0, []⟩).2 = false ∧
    (process_multiple_archives c9cex ⟨0, []⟩).1.results.length = 1 ∧
    (process_multiple_archives c9cex ⟨0, []⟩).1.errors =
      [(("mysite.com.zip"), process_directory_arity_error),
       (("general"), ("callback raised"))] := by decide

/-- **C9** (amended).  On every run in which no top-level exception is
injected (no raising progress callback, output directory creatable),
`process_multiple_archives` reaches the final temp-directory cleanup —
including runs where individual packages fail — and its overall result
carries exactly the per-package results of processing the packages in
order.  (The top-level-exception path, on which the error is caught
and recorded with collected results preserved but cleanup is skipped,
is exhibited by the counterexample.) -/
theorem c9_amended (env : BatchEnv) (gs : GenState)
    (hcb : env.hasCallback = false) (hmk : env.makedirs_ok = true) :
    (process_multiple_archives env gs).2 = true ∧
    (process_multiple_archives env gs).1.results = pureResults env env.archives gs := by
  have hloop : ∀ (as : List ArchiveEnv) (n : Nat) (gs0 : GenState)
      (acc : BatchRes) (paths : List String), ∃ n2 gs2 acc2 paths2,
      batchLoop env as n gs0 acc paths = Except.ok (n2, gs2, acc2, paths2) ∧
      acc2.results = acc.results ++ pureResults env as gs0 := by
    intro as
    induction as with
    | nil =>
      intro n gs0 acc paths
      exact ⟨n, gs0, acc, paths, rfl, by simp [pureResults]⟩
    | cons a rest ih =>
      intro n gs0 acc paths
      obtain ⟨n2, gs2, acc2, paths2, heq, hres⟩ :=
        ih (n + 1) (stepRes env a gs0).2 (stepAcc env a gs0 acc)
          (stepPaths env a gs0 paths)
      refine ⟨n2, gs2, acc2, paths2, ?_, ?_⟩
      · rw [batchLoop_cons env hcb a rest n gs0 acc paths]
        exact heq
      · rw [hres, stepAcc_results, pureResults]
        simp
  obtain ⟨n2, gs2, acc2, paths2, heq, hres⟩ :=
    hloop env.archives 0 gs ⟨false, 0, 0, 0, none, [], []⟩ []
  obtain ⟨acc3, hms, hr3⟩ := masterStep_ok env hmk paths2 acc2
  have hbody : batchBody env gs = Except.ok acc3 := by
    unfold batchBody
    rw [heq]
    simp only [cbCall_ok env hcb, hms]
  have hout : process_multiple_archives env gs = (acc3, true) := by
    unfold process_multiple_archives
    rw [hbody]
  rw [hout, hr3, hres]
  exact ⟨rfl, by simp⟩

def c9wenv : BatchEnv :=
  ⟨[⟨("mysite.com.zip"), true, [], none, fun _ => true⟩], 1, (".com"),
   fun _ => 0, defaultGenConfig, false, fun _ => true, true, true⟩

/-- Witness for the amended C9: a run whose single package fails (the
copy-phase `TypeError`) still reaches cleanup and keeps its result. -/
theorem c9_amended_witness :
    c9wenv.hasCallback = false ∧ c9wenv.makedirs_ok = true ∧
    ((process_multiple_archives c9wenv ⟨0, []⟩).2 = true ∧
     (process_multiple_archives c9wenv ⟨0, []⟩).1.results =
       pureResults c9wenv c9wenv.archives ⟨0, []⟩) :=
  ⟨rfl, rfl, c9_amended c9wenv ⟨0, []⟩ rfl rfl⟩
